import Mathlib

/-!
Shallow embedding of the NostrYears activity-aggregation engine
(`src/utils/textAnalysis.ts`, `src/utils/scoring.ts`, `src/services/nostrFetcher.ts`,
`src/services/nostrPublisher.ts`, `src/hooks/useNostrStats.ts`) together with
theorems settling the specification claims about it.

Modelling conventions:
* JavaScript numbers that only ever hold non-negative integers are `Nat`;
  unix timestamps are `Int`; the balance / percentile arithmetic is `ℚ`
  (`Math.round x` on a rational is Mathlib's `round`, i.e. `⌊x + 1/2⌋`).
* JavaScript `Map` and `Set` are insertion-ordered association lists
  (`jsGet` / `jsSet` / `jsAdd` below mirror `get` / `set` / `add`).
* `Array.prototype.sort(cmp)` with a consistent comparator is a stable merge
  sort, modelled by `List.mergeSort` with the boolean order derived from the
  comparator.
* Strings are Lean `String`s; `.length` of JavaScript strings counts UTF-16
  code units, modelled by `jsLen` over the character list.
* The bolt11 invoice decoder is an external library; it is modelled as an
  abstract decoding function `decode : String → Option (Option Nat)`
  (`none` = the decoder throws, `some none` = no amount section,
  `some (some m)` = amount of `m` millisatoshis).
* `new Date(ts).getFullYear()/getMonth()` read the platform's local timezone;
  the embedding makes the platform offset (in minutes) an explicit parameter
  and implements the proleptic-Gregorian calendar conversion used by
  ECMAScript `Date`.
-/

namespace NostrYears

/-! ## JavaScript collection primitives -/

/-- `Map.prototype.get` on an insertion-ordered association list. -/
def jsGet {α β : Type} [DecidableEq α] : List (α × β) → α → Option β
  | [], _ => none
  | p :: t, k => if p.1 = k then some p.2 else jsGet t k

/-- `Map.prototype.set`: replace the value in place if the key exists,
otherwise append the binding at the end. -/
def jsSet {α β : Type} [DecidableEq α] : List (α × β) → α → β → List (α × β)
  | [], k, v => [(k, v)]
  | p :: t, k, v => if p.1 = k then (k, v) :: t else p :: jsSet t k v

/-- `Set.prototype.add`: append if not already present. -/
def jsAdd {α : Type} [DecidableEq α] (s : List α) (x : α) : List α :=
  if x ∈ s then s else s ++ [x]

/-- UTF-16 length of a character list (JavaScript `String.prototype.length`). -/
def jsLen (l : List Char) : Nat :=
  (l.map (fun c => if c.toNat < 0x10000 then 1 else 2)).sum

/-! ## `src/utils/textAnalysis.ts` -/

/-- Code points of `\s` in ECMAScript regular expressions (also the set
trimmed by `String.prototype.trim`). -/
def isWs (c : Char) : Bool :=
  let n := c.toNat
  n == 9 || n == 10 || n == 11 || n == 12 || n == 13 || n == 32 || n == 160 ||
  n == 0x1680 || (0x2000 ≤ n && n ≤ 0x200a) || n == 0x2028 || n == 0x2029 ||
  n == 0x202f || n == 0x205f || n == 0x3000 || n == 0xfeff

/-- Characters admitted by the body of `URL_PATTERN`
(the negated class excludes whitespace and code points 60 62 34 123 125 124 92 94 96 91 93,
i.e. angle brackets, double quote, braces, pipe, backslash, caret, backquote and
square brackets). -/
def isUrlChar (c : Char) : Bool :=
  !(isWs c) &&
  !([60, 62, 34, 123, 125, 124, 92, 94, 96, 91, 93].contains c.toNat)

/-- ASCII lowering (the effect of the `i` flag on the ASCII pattern letters). -/
def lowerChar (c : Char) : Char :=
  if 'A' ≤ c ∧ c ≤ 'Z' then Char.ofNat (c.toNat + 32) else c

def schemeHttp : List Char := ['h', 't', 't', 'p', ':', '/', '/']

def schemeHttps : List Char := ['h', 't', 't', 'p', 's', ':', '/', '/']

/-- Does `l`, lowered, start with the pattern `pat`? -/
def startsWithLower (pat l : List Char) : Bool :=
  (l.take pat.length).map lowerChar == pat

/-- Length of the scheme part of `URL_PATTERN` matched at the head of `l`
(`https?://`, case-insensitively), if any. -/
def schemeLen (l : List Char) : Option Nat :=
  if startsWithLower schemeHttps l then some 8
  else if startsWithLower schemeHttp l then some 7
  else none

/-- Length of the (leftmost, greedy) `URL_PATTERN` match anchored at the head
of `l`, if any: the scheme followed by at least one URL character. -/
def matchLenAt (l : List Char) : Option Nat :=
  match schemeLen l with
  | none => none
  | some n =>
    let run := (l.drop n).takeWhile isUrlChar
    if run.length == 0 then none else some (n + run.length)

/-- The global-replace scan of `text.replace(URL_PATTERN, '')`: walk the
string, deleting every leftmost match and continuing after it.  `fuel`
bounds the recursion; `fuel ≥ l.length` is always sufficient. -/
def scanUrls : Nat → List Char → List Char
  | 0, l => l
  | _ + 1, [] => []
  | fuel + 1, c :: t =>
    match matchLenAt (c :: t) with
    | some n => scanUrls fuel (List.drop n (c :: t))
    | none => c :: scanUrls fuel t

/-- The list of matches of `text.match(URL_PATTERN)`. -/
def urlMatchList : Nat → List Char → List (List Char)
  | 0, _ => []
  | _ + 1, [] => []
  | fuel + 1, c :: t =>
    match matchLenAt (c :: t) with
    | some n => List.take n (c :: t) :: urlMatchList fuel (List.drop n (c :: t))
    | none => urlMatchList fuel t

/-- `String.prototype.trim`. -/
def trimChars (l : List Char) : List Char :=
  ((l.dropWhile isWs).reverse.dropWhile isWs).reverse

/-- `removeUrls`: strip every URL-shaped substring, then trim. -/
def removeUrls (l : List Char) : List Char :=
  trimChars (scanUrls l.length l)

/-- `countCharsWithoutUrls`: UTF-16 length after URL stripping and trimming. -/
def countCharsWithoutUrls (s : String) : Nat :=
  jsLen (removeUrls s.toList)

def imageExtList : List (List Char) :=
  [['j', 'p', 'g'], ['j', 'p', 'e', 'g'], ['p', 'n', 'g'], ['g', 'i', 'f'],
   ['w', 'e', 'b', 'p'], ['b', 'm', 'p'], ['s', 'v', 'g']]

/-- Does the (lowered) tail `l` match `\.(ext)(\?[^\s]*)?$` for one of the
image extensions? -/
def extQueryMatch (l : List Char) : Bool :=
  imageExtList.any fun ext =>
    match l with
    | '.' :: rest =>
      rest.take ext.length == ext &&
      (match rest.drop ext.length with
       | [] => true
       | '?' :: qs => qs.all fun c => !(isWs c)
       | _ => false)
    | _ => false

/-- `IMAGE_EXTENSIONS.test(url)`: some suffix of the URL matches the anchored
extension pattern. -/
def isImageUrl (u : List Char) : Bool :=
  ((u.map lowerChar).tails).any extQueryMatch

/-- `countImages`: number of URL matches whose path ends in an image
extension (query string ignored). -/
def countImages (s : String) : Nat :=
  ((urlMatchList s.toList.length s.toList).filter isImageUrl).length

/-- Is `t` a `p` tag with a truthy (non-empty) value? -/
def isPTag (t : List String) : Bool :=
  t[0]? == some "p" && (t[1]?).getD "" != ""

/-- `extractPubkeysFromTags`. -/
def extractPubkeysFromTags (tags : List (List String)) : List String :=
  (tags.filter isPTag).filterMap fun t => t[1]?

/-- `isReply`: the event has an `e` tag with a truthy value. -/
def isReply (tags : List (List String)) : Bool :=
  tags.any fun t => t[0]? == some "e" && (t[1]?).getD "" != ""

/-! ## `src/utils/percentile.ts` (`calculatePercentile`) -/

/-- `calculatePercentile`: sort ascending, count the values strictly below
`value`, return `Math.round(100 - below / n * 100)`; `0` on an empty
population. -/
def calculatePercentile (value : Int) (allValues : List Int) : Int :=
  if allValues = [] then 0
  else
    let sorted := allValues.mergeSort fun a b => decide (a ≤ b)
    let below := (sorted.filter fun v => decide (v < value)).length
    round ((100 : ℚ) - ((below : ℚ) / (sorted.length : ℚ)) * 100)

/-! ## `src/utils/scoring.ts` -/

structure FriendScore where
  pubkey : String
  outgoingReactions : Nat
  outgoingReplies : Nat
  incomingReactions : Nat
  incomingReplies : Nat
  balanceScore : ℚ
deriving DecidableEq

/-- `calculateBalanceScore`: `1 - |outgoing - incoming| / total`, `0` when the
total is `0`. -/
def calculateBalanceScore (outgoing incoming : Nat) : ℚ :=
  if outgoing + incoming = 0 then 0
  else 1 - |(outgoing : ℚ) - (incoming : ℚ)| / ((outgoing : ℚ) + (incoming : ℚ))

/-- The comparator `(a, b) => b.outgoingReactions - a.outgoingReactions ||
b.balanceScore - a.balanceScore` as a boolean "less-or-equal": `a` may come
before `b`. -/
def friendLE (a b : FriendScore) : Bool :=
  decide (b.outgoingReactions < a.outgoingReactions) ||
  (a.outgoingReactions == b.outgoingReactions && decide (b.balanceScore ≤ a.balanceScore))

/-- Count lookup with the `|| 0` default. -/
def countOf [DecidableEq α] (m : List (α × Nat)) (k : α) : Nat :=
  (jsGet m k).getD 0

/-- `addToCountMap`. -/
def addToCountMap [DecidableEq α] (m : List (α × Nat)) (k : α) : List (α × Nat) :=
  jsSet m k (countOf m k + 1)

/-- `calculateFriendScores`: union of the four key sets in insertion order,
filter to identities with at least one outgoing reaction, score, and sort by
outgoing reactions then balance (both descending, stable). -/
def calculateFriendScores
    (outgoingReactions outgoingReplies incomingReactions incomingReplies :
      List (String × Nat)) : List FriendScore :=
  let allPubkeys :=
    (outgoingReactions.map Prod.fst ++ outgoingReplies.map Prod.fst ++
     incomingReactions.map Prod.fst ++ incomingReplies.map Prod.fst).foldl jsAdd []
  let scores := allPubkeys.filterMap fun p =>
    let oR := countOf outgoingReactions p
    let oRp := countOf outgoingReplies p
    let iR := countOf incomingReactions p
    let iRp := countOf incomingReplies p
    if oR = 0 then none
    else some ⟨p, oR, oRp, iR, iRp, calculateBalanceScore (oR + oRp) (iR + iRp)⟩
  scores.mergeSort friendLE

/-- The sort order of `calculateFriendScores` as a proposition: primary key
`outgoingReactions` descending, secondary key `balanceScore` descending. -/
def friendRel (a b : FriendScore) : Prop :=
  b.outgoingReactions < a.outgoingReactions ∨
  (a.outgoingReactions = b.outgoingReactions ∧ b.balanceScore ≤ a.balanceScore)

/-! ## `src/services/nostrFetcher.ts`: time bucketing -/

/-- Year and month of a day number (days since 1970-01-01) in the proleptic
Gregorian calendar, as computed by ECMAScript `Date` (standard
days-to-civil conversion; all divisors are positive so `/` is floor
division). -/
def civilFromDays (z0 : Int) : Int × Int :=
  let z := z0 + 719468
  let era := z / 146097
  let doe := z - era * 146097
  let yoe := (doe - doe / 1460 + doe / 36524 - doe / 146096) / 365
  let y := yoe + era * 400
  let doy := doe - (365 * yoe + yoe / 4 - yoe / 100)
  let mp := (5 * doy + 2) / 153
  let m := if mp < 10 then mp + 3 else mp - 9
  (if m ≤ 2 then y + 1 else y, m)

/-- `String(month).padStart(2, '0')` for a month number `1..12`. -/
def pad2 (m : Int) : String :=
  if m < 10 then "0" ++ toString m else toString m

/-- `getMonthKey`: `new Date(ts * 1000)` with `getFullYear()` / `getMonth()`,
which read the platform's local timezone; the platform offset (in minutes,
e.g. `540` for UTC+9) is therefore an explicit parameter of the embedding. -/
def getMonthKey (tzOffsetMinutes ts : Int) : String :=
  let ym := civilFromDays ((ts + tzOffsetMinutes * 60) / 86400)
  toString ym.1 ++ "-" ++ pad2 ym.2

/-- `getHourJST`: `(date.getUTCHours() + 9) % 24`. -/
def getHourJST (ts : Int) : Int :=
  ((ts / 3600) % 24 + 9) % 24

/-- Spec-side definition (for the refinement claim C4, following the spec's
words): the calendar year-month of `created_at` under a fixed UTC+9 offset. -/
def specMonthKeyUTC9 (ts : Int) : String :=
  let ym := civilFromDays ((ts + 9 * 3600) / 86400)
  toString ym.1 ++ "-" ++ pad2 ym.2

/-- Spec-side definition: the hour of day of `created_at` under a fixed
UTC+9 offset. -/
def specHourUTC9 (ts : Int) : Int :=
  ((ts + 9 * 3600) / 3600) % 24

/-! ## `src/services/nostrPublisher.ts`: snapshot reconciler -/

def NOSTR_YEARS_VERSION : Nat := 3

/-- The published-snapshot fields inspected by the reconciler
(`NostrYearsEventContent`): schema version, optional relay list, period. -/
structure PublishedContent where
  version : Nat
  relays : Option (List String)
  period : Int × Int
deriving DecidableEq

/-- JavaScript default string sort (`[...a].sort()`). -/
def jsSortStrings (l : List String) : List String :=
  l.mergeSort fun a b => decide (a ≤ b)

/-- `arraysEqual`: equal length and pointwise-equal sorted copies. -/
def arraysEqual (a b : List String) : Bool :=
  a.length == b.length &&
  ((jsSortStrings a).zip (jsSortStrings b)).all fun p => p.1 == p.2

/-- `fetchOwnNostrYearsEvent`, given the (externally fetched and parsed)
latest own published snapshot: returned only if its `version` matches. -/
def fetchOwnNostrYearsEvent (fetched : Option PublishedContent) :
    Option PublishedContent :=
  match fetched with
  | some c => if c.version = NOSTR_YEARS_VERSION then some c else none
  | none => none

/-- `fetchOwnNostrYearsEventWithRelays`: additionally requires
`content.relays` to be present (an array is truthy) and `arraysEqual` to the
requested relay list.  The requested period is not consulted. -/
def fetchOwnNostrYearsEventWithRelays (fetched : Option PublishedContent)
    (relays : List String) : Option PublishedContent :=
  match fetchOwnNostrYearsEvent fetched with
  | some c =>
    match c.relays with
    | some rs => if arraysEqual rs relays then some c else none
    | none => none
  | none => none

/-! ## `src/services/nostrFetcher.ts`: the metric accumulator -/

/-- A retrieved event (the fields the accumulator reads). -/
structure NostrEvent where
  id : String
  pubkey : String
  kind : Nat
  created_at : Int
  tags : List (List String)
  content : String
deriving DecidableEq

/-- `extractSatsFromBolt11`, over an abstract decoder for the external
bolt11 library: `decode inv = none` models a decoder exception,
`some none` a decode with no amount section, `some (some m)` an amount of
`m` millisatoshis.  The sats value is the floor-divided amount; every
failure yields `0`. -/
def extractSatsFromBolt11 (decode : String → Option (Option Nat))
    (bolt11 : String) : Nat :=
  match decode bolt11 with
  | some (some m) => m / 1000
  | _ => 0

/-- One month bucket of `monthlyMap`. -/
structure MonthCounts where
  kind1 : Nat
  kind6 : Nat
  kind7 : Nat
  kind42 : Nat
  kind30023 : Nat
  receivedReactions : Nat
  zapsSent : Nat
  zapsReceived : Nat
deriving DecidableEq

def zeroMonth : MonthCounts := ⟨0, 0, 0, 0, 0, 0, 0, 0⟩

structure TopPostInfo where
  id : String
  reactionCount : Nat
deriving DecidableEq

structure TopReactionEmoji where
  emoji : String
  count : Nat
deriving DecidableEq

structure MonthlyActivity where
  month : String
  kind1 : Nat
  kind6 : Nat
  kind7 : Nat
  kind42 : Nat
  kind30023 : Nat
  receivedReactions : Nat
  zapsSent : Nat
  zapsReceived : Nat
deriving DecidableEq

structure HourlyActivity where
  hour : Int
  count : Nat
deriving DecidableEq

structure ZapStats where
  count : Nat
  totalSats : Nat
  averageSats : Int
deriving DecidableEq

/-- The mutable state of one `fetchNostrYearsStats` invocation. -/
structure AccState where
  reactionEmojiCounts : List (String × Nat)
  outgoingReactions : List (String × Nat)
  outgoingReplies : List (String × Nat)
  incomingReactions : List (String × Nat)
  incomingReplies : List (String × Nat)
  ownKind1Ids : List String
  kind1ReactionCounts : List (String × Nat)
  monthlyMap : List (String × MonthCounts)
  hourlyMap : List (Int × Nat)
  kind1Count : Nat
  kind1Chars : Nat
  kind30023Count : Nat
  kind30023Chars : Nat
  kind6Count : Nat
  kind7Count : Nat
  kind42Count : Nat
  receivedReactionsCount : Nat
  imageCount : Nat
  zapsReceivedCount : Nat
  zapsReceivedTotal : Nat
  zapsSentCount : Nat
  zapsSentTotal : Nat
deriving DecidableEq

/-- The accumulator state at the start of an invocation (`hourlyMap` is
pre-seeded with hours `0..23` at count `0`). -/
def initAcc : AccState where
  reactionEmojiCounts := []
  outgoingReactions := []
  outgoingReplies := []
  incomingReactions := []
  incomingReplies := []
  ownKind1Ids := []
  kind1ReactionCounts := []
  monthlyMap := []
  hourlyMap := (List.range 24).map fun h : Nat => ((h : Int), 0)
  kind1Count := 0
  kind1Chars := 0
  kind30023Count := 0
  kind30023Chars := 0
  kind6Count := 0
  kind7Count := 0
  kind42Count := 0
  receivedReactionsCount := 0
  imageCount := 0
  zapsReceivedCount := 0
  zapsReceivedTotal := 0
  zapsSentCount := 0
  zapsSentTotal := 0

/-- `addToMonthly`: insert a zero bucket on first use of the month key, then
bump one field. -/
def addToMonthly (tz : Int) (m : List (String × MonthCounts)) (ts : Int)
    (upd : MonthCounts → MonthCounts) : List (String × MonthCounts) :=
  jsSet m (getMonthKey tz ts) (upd ((jsGet m (getMonthKey tz ts)).getD zeroMonth))

/-- `addToHourly`. -/
def addToHourly (m : List (Int × Nat)) (ts : Int) : List (Int × Nat) :=
  jsSet m (getHourJST ts) ((jsGet m (getHourJST ts)).getD 0 + 1)

/-- Record `addToCountMap` for every referenced pubkey other than the
subject. -/
def addTargets (subject : String) (m : List (String × Nat))
    (tags : List (List String)) : List (String × Nat) :=
  (extractPubkeysFromTags tags).foldl
    (fun acc t => if t = subject then acc else addToCountMap acc t) m

/-- The first `e` tag of an event (`tags.find(t => t[0] === 'e')`). -/
def findETag (tags : List (List String)) : Option (List String) :=
  tags.find? fun t => t[0]? == some "e"

/-- The first `bolt11` tag of an event. -/
def findBolt11Tag (tags : List (List String)) : Option (List String) :=
  tags.find? fun t => t[0]? == some "bolt11"

/-- Processing of one own event (the `switch` over `ownEvents`). -/
def processOwn (tz : Int) (subject : String) (s : AccState) (e : NostrEvent) :
    AccState :=
  if e.kind = 1 then
    let s' := { s with
      kind1Count := s.kind1Count + 1
      kind1Chars := s.kind1Chars + countCharsWithoutUrls e.content
      imageCount := s.imageCount + countImages e.content
      ownKind1Ids := jsAdd s.ownKind1Ids e.id
      monthlyMap := addToMonthly tz s.monthlyMap e.created_at
        (fun c => { c with kind1 := c.kind1 + 1 })
      hourlyMap := addToHourly s.hourlyMap e.created_at }
    if isReply e.tags then
      { s' with outgoingReplies := addTargets subject s'.outgoingReplies e.tags }
    else s'
  else if e.kind = 6 then
    { s with
      kind6Count := s.kind6Count + 1
      monthlyMap := addToMonthly tz s.monthlyMap e.created_at
        (fun c => { c with kind6 := c.kind6 + 1 })
      hourlyMap := addToHourly s.hourlyMap e.created_at }
  else if e.kind = 7 then
    { s with
      kind7Count := s.kind7Count + 1
      monthlyMap := addToMonthly tz s.monthlyMap e.created_at
        (fun c => { c with kind7 := c.kind7 + 1 })
      hourlyMap := addToHourly s.hourlyMap e.created_at
      outgoingReactions := addTargets subject s.outgoingReactions e.tags
      reactionEmojiCounts := addToCountMap s.reactionEmojiCounts
        (if e.content = "" then "+" else e.content) }
  else if e.kind = 42 then
    { s with
      kind42Count := s.kind42Count + 1
      monthlyMap := addToMonthly tz s.monthlyMap e.created_at
        (fun c => { c with kind42 := c.kind42 + 1 })
      hourlyMap := addToHourly s.hourlyMap e.created_at }
  else if e.kind = 30023 then
    { s with
      kind30023Count := s.kind30023Count + 1
      kind30023Chars := s.kind30023Chars + countCharsWithoutUrls e.content
      monthlyMap := addToMonthly tz s.monthlyMap e.created_at
        (fun c => { c with kind30023 := c.kind30023 + 1 })
      hourlyMap := addToHourly s.hourlyMap e.created_at }
  else s

/-- Processing of one incoming event (the `switch` over `incomingEvents`;
self-authored events are skipped first). -/
def processIncoming (decode : String → Option (Option Nat)) (tz : Int)
    (subject : String) (s : AccState) (e : NostrEvent) : AccState :=
  if e.pubkey = subject then s
  else if e.kind = 7 then
    match findETag e.tags with
    | some t =>
      let s' :=
        match t[1]? with
        | some pid =>
          if pid ∈ s.ownKind1Ids then
            { s with kind1ReactionCounts := jsSet s.kind1ReactionCounts pid ((jsGet s.kind1ReactionCounts pid).getD 0 + 1) }
          else s
        | none => s
      { s' with
        incomingReactions := addToCountMap s'.incomingReactions e.pubkey
        receivedReactionsCount := s'.receivedReactionsCount + 1
        monthlyMap := addToMonthly tz s'.monthlyMap e.created_at
          (fun c => { c with receivedReactions := c.receivedReactions + 1 }) }
    | none => s
  else if e.kind = 1 then
    if isReply e.tags then
      { s with incomingReplies := addToCountMap s.incomingReplies e.pubkey }
    else s
  else if e.kind = 9735 then
    match findBolt11Tag e.tags with
    | some t =>
      if (t[1]?).getD "" ≠ "" then
        let sats := extractSatsFromBolt11 decode ((t[1]?).getD "")
        if 0 < sats then
          { s with
            zapsReceivedCount := s.zapsReceivedCount + 1
            zapsReceivedTotal := s.zapsReceivedTotal + sats
            monthlyMap := addToMonthly tz s.monthlyMap e.created_at
              (fun c => { c with zapsReceived := c.zapsReceived + 1 }) }
        else s
      else s
    | none => s
  else s

/-- Processing of one sent-zap event. -/
def processSentZap (decode : String → Option (Option Nat)) (tz : Int)
    (s : AccState) (e : NostrEvent) : AccState :=
  match findBolt11Tag e.tags with
  | some t =>
    if (t[1]?).getD "" ≠ "" then
      let sats := extractSatsFromBolt11 decode ((t[1]?).getD "")
      if 0 < sats then
        { s with
          zapsSentCount := s.zapsSentCount + 1
          zapsSentTotal := s.zapsSentTotal + sats
          monthlyMap := addToMonthly tz s.monthlyMap e.created_at
            (fun c => { c with zapsSent := c.zapsSent + 1 }) }
      else s
    else s
  | none => s

def topPostLE (a b : TopPostInfo) : Bool := decide (b.reactionCount ≤ a.reactionCount)

def emojiLE (a b : TopReactionEmoji) : Bool := decide (b.count ≤ a.count)

def monthLE (a b : MonthlyActivity) : Bool := decide (a.month ≤ b.month)

def hourLE (a b : HourlyActivity) : Bool := decide (a.hour ≤ b.hour)

def monthRecordOf (p : String × MonthCounts) : MonthlyActivity :=
  ⟨p.1, p.2.kind1, p.2.kind6, p.2.kind7, p.2.kind42, p.2.kind30023,
   p.2.receivedReactions, p.2.zapsSent, p.2.zapsReceived⟩

/-- `averageSats`: `Math.round(total / count)` when `count > 0`, else `0`. -/
def averageSats (total count : Nat) : Int :=
  if 0 < count then round ((total : ℚ) / (count : ℚ)) else 0

/-- The produced snapshot (`NostrYearsStats`). -/
structure NostrYearsStats where
  pubkey : String
  relays : List String
  period : Int × Int
  kind1Count : Nat
  kind1Chars : Nat
  kind30023Count : Nat
  kind30023Chars : Nat
  kind6Count : Nat
  kind7Count : Nat
  receivedReactionsCount : Nat
  kind42Count : Nat
  imageCount : Nat
  topPosts : List TopPostInfo
  topReactionEmojis : List TopReactionEmoji
  friendsRanking : List FriendScore
  monthlyActivity : List MonthlyActivity
  hourlyActivity : List HourlyActivity
  zapsReceived : ZapStats
  zapsSent : ZapStats
deriving DecidableEq

/-- The pure retrieval-and-accumulation pass of `fetchNostrYearsStats`:
fold the own events, the incoming events and the sent zaps, then finalize
the top-N lists, the histograms, the zap averages and the friends ranking. -/
def accumulateStats (decode : String → Option (Option Nat)) (tz : Int)
    (subject : String) (relays : List String) (periodSince periodUntil : Int)
    (ownEvents incomingEvents sentZaps : List NostrEvent) : NostrYearsStats :=
  let s1 := ownEvents.foldl (processOwn tz subject) initAcc
  let s2 := incomingEvents.foldl (processIncoming decode tz subject) s1
  let s3 := sentZaps.foldl (processSentZap decode tz) s2
  { pubkey := subject
    relays := relays
    period := (periodSince, periodUntil)
    kind1Count := s3.kind1Count
    kind1Chars := s3.kind1Chars
    kind30023Count := s3.kind30023Count
    kind30023Chars := s3.kind30023Chars
    kind6Count := s3.kind6Count
    kind7Count := s3.kind7Count
    receivedReactionsCount := s3.receivedReactionsCount
    kind42Count := s3.kind42Count
    imageCount := s3.imageCount
    topPosts :=
      (((s3.kind1ReactionCounts.map fun p => TopPostInfo.mk p.1 p.2).mergeSort
        topPostLE).take 3)
    topReactionEmojis :=
      (((s3.reactionEmojiCounts.map fun p => TopReactionEmoji.mk p.1 p.2).mergeSort
        emojiLE).take 10)
    friendsRanking :=
      ((calculateFriendScores s3.outgoingReactions s3.outgoingReplies
        s3.incomingReactions s3.incomingReplies).take 10)
    monthlyActivity := (s3.monthlyMap.map monthRecordOf).mergeSort monthLE
    hourlyActivity :=
      ((s3.hourlyMap.map fun p => HourlyActivity.mk p.1 p.2).mergeSort hourLE)
    zapsReceived :=
      ⟨s3.zapsReceivedCount, s3.zapsReceivedTotal,
       averageSats s3.zapsReceivedTotal s3.zapsReceivedCount⟩
    zapsSent :=
      ⟨s3.zapsSentCount, s3.zapsSentTotal,
       averageSats s3.zapsSentTotal s3.zapsSentCount⟩ }

/-- The order-insensitive part of a snapshot singled out by claim C8:
counts, character totals, image count, both histograms, received-reaction
total, and the zap aggregates. -/
structure StatsCore where
  kind1Count : Nat
  kind1Chars : Nat
  kind30023Count : Nat
  kind30023Chars : Nat
  kind6Count : Nat
  kind7Count : Nat
  receivedReactionsCount : Nat
  kind42Count : Nat
  imageCount : Nat
  monthlyActivity : List MonthlyActivity
  hourlyActivity : List HourlyActivity
  zapsReceived : ZapStats
  zapsSent : ZapStats
deriving DecidableEq

def statsCore (s : NostrYearsStats) : StatsCore :=
  ⟨s.kind1Count, s.kind1Chars, s.kind30023Count, s.kind30023Chars,
   s.kind6Count, s.kind7Count, s.receivedReactionsCount, s.kind42Count,
   s.imageCount, s.monthlyActivity, s.hourlyActivity, s.zapsReceived,
   s.zapsSent⟩

/-! ## `src/services/nostrFetcher.ts`: progress reporting -/

/-- The throttled per-event emissions of `fetchWithProgress` over the stream
of `created_at` values delivered by the iterator: an update is emitted only
when the estimated progress advanced at least 2 points since the last
emission, and the emitted value is clamped to the phase end. -/
def phaseEmitGo (sinceTs untilTs : Int) (startP endP : ℚ) :
    ℚ → List Int → List ℚ
  | _, [] => []
  | lastP, t :: ts =>
    let ep : ℚ := ((untilTs : ℚ) - (t : ℚ)) / ((untilTs : ℚ) - (sinceTs : ℚ))
    let prog := startP + ep * (endP - startP)
    if 2 ≤ prog - lastP then
      min prog endP :: phaseEmitGo sinceTs untilTs startP endP prog ts
    else phaseEmitGo sinceTs untilTs startP endP lastP ts

def phaseEmissions (sinceTs untilTs : Int) (startP endP : ℚ)
    (times : List Int) : List ℚ :=
  phaseEmitGo sinceTs untilTs startP endP startP times

/-- The full sequence of `progress` values delivered to `onProgress` by one
`fetchNostrYearsStats` invocation, as a function of the per-phase streams of
event timestamps: the fixed emissions at 5, 40 and 70 around the two
per-event phases, then 65 ("Processing data..."), 85, 90 and 100. -/
def progressSeq (sinceTs untilTs : Int) (phase1 phase2 : List Int) : List ℚ :=
  [5] ++ phaseEmissions sinceTs untilTs 5 40 phase1 ++ [40] ++
  phaseEmissions sinceTs untilTs 40 70 phase2 ++ [70, 65, 85, 90, 100]

/-- The kinds of own events that are counted (and bucketed by month and
hour). -/
def countedKind (k : Nat) : Bool :=
  k == 1 || k == 6 || k == 7 || k == 42 || k == 30023

/-- Specification-side count: own counted events falling in hour bucket
`h`. -/
def ownHourCount (own : List NostrEvent) (h : Int) : Nat :=
  (own.filter fun e => countedKind e.kind && getHourJST e.created_at == h).length

/-- The satoshi value a zap event contributes: the decoded amount of its
first `bolt11` tag when that tag is present with a non-empty value, else
`0`. -/
def zapSats (decode : String → Option (Option Nat)) (e : NostrEvent) : Nat :=
  match findBolt11Tag e.tags with
  | some t => if (t[1]?).getD "" ≠ "" then extractSatsFromBolt11 decode ((t[1]?).getD "") else 0
  | none => 0

/-- The month-bucket field bumped by an own event of kind `k`. -/
def monthUpdOwn (k : Nat) (c : MonthCounts) : MonthCounts :=
  if k = 1 then { c with kind1 := c.kind1 + 1 }
  else if k = 6 then { c with kind6 := c.kind6 + 1 }
  else if k = 7 then { c with kind7 := c.kind7 + 1 }
  else if k = 42 then { c with kind42 := c.kind42 + 1 }
  else if k = 30023 then { c with kind30023 := c.kind30023 + 1 }
  else c

/-- Pointwise update of a month-lookup function. -/
def bumpAt (key : String) (upd : MonthCounts → MonthCounts)
    (g : String → MonthCounts) : String → MonthCounts :=
  fun m => if m = key then upd (g m) else g m

/-- The month-lookup transition of one own event. -/
def mStepOwn (tz : Int) (g : String → MonthCounts) (e : NostrEvent) :
    String → MonthCounts :=
  if countedKind e.kind then
    bumpAt (getMonthKey tz e.created_at) (monthUpdOwn e.kind) g
  else g

/-- The month-lookup transition of one incoming event. -/
def mStepInc (decode : String → Option (Option Nat)) (tz : Int)
    (subject : String) (g : String → MonthCounts) (e : NostrEvent) :
    String → MonthCounts :=
  if (e.pubkey != subject) && (e.kind == 7) && (findETag e.tags).isSome then
    bumpAt (getMonthKey tz e.created_at)
      (fun c => { c with receivedReactions := c.receivedReactions + 1 }) g
  else if (e.pubkey != subject) && (e.kind == 9735) && decide (0 < zapSats decode e) then
    bumpAt (getMonthKey tz e.created_at)
      (fun c => { c with zapsReceived := c.zapsReceived + 1 }) g
  else g

/-- The month-lookup transition of one sent-zap event. -/
def mStepSent (decode : String → Option (Option Nat)) (tz : Int)
    (g : String → MonthCounts) (e : NostrEvent) : String → MonthCounts :=
  if 0 < zapSats decode e then
    bumpAt (getMonthKey tz e.created_at)
      (fun c => { c with zapsSent := c.zapsSent + 1 }) g
  else g

/-- Does an incoming event touch the month histogram? -/
def incMonthContrib (decode : String → Option (Option Nat)) (subject : String)
    (e : NostrEvent) : Bool :=
  ((e.pubkey != subject) && (e.kind == 7) && (findETag e.tags).isSome) ||
  ((e.pubkey != subject) && (e.kind == 9735) && decide (0 < zapSats decode e))

/-- The month-lookup function of an accumulator state. -/
def monthLookup (s : AccState) : String → MonthCounts :=
  fun m => (jsGet s.monthlyMap m).getD zeroMonth

/-- Number of own events of kind `k`. -/
def ownKindCount (k : Nat) (es : List NostrEvent) : Nat :=
  es.countP fun e => e.kind == k

/-- URL-stripped character total of own events of kind `k`. -/
def ownCharSum (k : Nat) (es : List NostrEvent) : Nat :=
  ((es.filter fun e => e.kind == k).map fun e => countCharsWithoutUrls e.content).sum

/-- Image total of own posts. -/
def ownImageSum (es : List NostrEvent) : Nat :=
  ((es.filter fun e => e.kind == 1).map fun e => countImages e.content).sum

/-- Number of incoming third-party reactions carrying an `e` tag. -/
def incReactionCount (subject : String) (es : List NostrEvent) : Nat :=
  es.countP fun e =>
    (e.pubkey != subject) && (e.kind == 7) && (findETag e.tags).isSome

/-- Number of counted incoming zap receipts. -/
def incZapCount (decode : String → Option (Option Nat)) (subject : String)
    (es : List NostrEvent) : Nat :=
  es.countP fun e =>
    (e.pubkey != subject) && (e.kind == 9735) && decide (0 < zapSats decode e)

/-- Satoshi total of incoming zap receipts. -/
def incZapTotal (decode : String → Option (Option Nat)) (subject : String)
    (es : List NostrEvent) : Nat :=
  ((es.filter fun e => (e.pubkey != subject) && (e.kind == 9735)).map
    (zapSats decode)).sum

/-- Number of counted sent zaps. -/
def sentZapCount (decode : String → Option (Option Nat))
    (es : List NostrEvent) : Nat :=
  es.countP fun e => decide (0 < zapSats decode e)

/-- Satoshi total of sent zaps. -/
def sentZapTotal (decode : String → Option (Option Nat))
    (es : List NostrEvent) : Nat :=
  (es.map (zapSats decode)).sum

/-! ## Decomposition of a text into non-URL chunks and URL tokens (for C9) -/

/-- Reassemble a text from a leading chunk and a list of (URL, chunk)
pairs. -/
def assemble (c0 : List Char) : List (List Char × List Char) → List Char
  | [] => c0
  | (u, c) :: rest => c0 ++ u ++ assemble c rest

/-- A chunk is scheme-free: no suffix of it starts with `http://` or
`https://` (case-insensitively). -/
def chunkSafeB (c : List Char) : Bool :=
  c.tails.all fun t => (schemeLen t).isNone

/-- Well-separated decomposition: every URL token is a full `URL_PATTERN`
match, every separator chunk is scheme-free and starts with a character
outside the URL character class (an empty chunk is allowed only at the very
end). -/
def sepB : List (List Char × List Char) → Bool
  | [] => true
  | (u, c) :: rest =>
    (matchLenAt u == some u.length) && chunkSafeB c &&
    (match c with
     | [] => rest.isEmpty
     | x :: _ => !(isUrlChar x)) &&
    sepB rest

-- ### THEOREMS

/-! ### Association list and `Set` lemmas -/

theorem jsGet_isSome_iff [DecidableEq α] (m : List (α × β)) (k : α) :
    (jsGet m k).isSome ↔ k ∈ m.map Prod.fst := by
  induction m with
  | nil => simp [jsGet]
  | cons p t ih =>
    simp only [jsGet, List.map_cons, List.mem_cons]
    by_cases h : p.1 = k
    · simp [h]
    · simp only [h, if_false, ih]
      constructor
      · exact fun hk => Or.inr hk
      · rintro (hk | hk)
        · exact absurd hk.symm h
        · exact hk

theorem jsGet_eq_none_of_not_mem [DecidableEq α] (m : List (α × β)) (k : α)
    (h : k ∉ m.map Prod.fst) : jsGet m k = none := by
  have := (jsGet_isSome_iff m k).not.mpr h
  cases hg : jsGet m k with
  | none => rfl
  | some v => rw [hg] at this; simp at this

theorem mem_foldl_jsAdd [DecidableEq α] (l : List α) (acc : List α) (x : α) :
    x ∈ l.foldl jsAdd acc ↔ x ∈ acc ∨ x ∈ l := by
  induction l generalizing acc with
  | nil => simp
  | cons a t ih =>
    simp only [List.foldl_cons, ih, jsAdd]
    by_cases h : a ∈ acc
    · simp only [h, if_true, List.mem_cons]
      constructor
      · rintro (hx | hx)
        · exact Or.inl hx
        · exact Or.inr (Or.inr hx)
      · rintro (hx | hx | hx)
        · exact Or.inl hx
        · exact Or.inl (hx ▸ h)
        · exact Or.inr hx
    · simp only [h, if_false, List.mem_append, List.mem_singleton, List.mem_cons]
      tauto

/-! ### Claim C1: the affinity ranking -/

theorem friendLE_iff (a b : FriendScore) : friendLE a b = true ↔ friendRel a b := by
  simp [friendLE, friendRel, Bool.or_eq_true, Bool.and_eq_true, decide_eq_true_iff, beq_iff_eq]

theorem friendLE_trans (a b c : FriendScore)
    (hab : friendLE a b = true) (hbc : friendLE b c = true) : friendLE a c = true := by
  rw [friendLE_iff] at *
  rcases hab with h1 | ⟨h1, h1'⟩ <;> rcases hbc with h2 | ⟨h2, h2'⟩
  · exact Or.inl (h2.trans h1)
  · exact Or.inl (h2 ▸ h1)
  · exact Or.inl (h1 ▸ h2)
  · exact Or.inr ⟨h1.trans h2, h2'.trans h1'⟩

theorem friendLE_total (a b : FriendScore) : (friendLE a b || friendLE b a) = true := by
  rcases lt_trichotomy a.outgoingReactions b.outgoingReactions with h | h | h
  · simp [friendLE, h]
  · rcases le_total a.balanceScore b.balanceScore with hb | hb <;>
      simp [friendLE, h, hb]
  · simp [friendLE, h]

/-- Claim C1: `calculateFriendScores` ranks exactly the identities the subject
has reacted to at least once, with the four directional counts looked up with
default `0`, the balance `1 - |totalSent - totalReceived| / (totalSent + totalReceived)`
(`0` when both totals are zero), sorted by outgoing reactions then balance,
both descending; the published ranking is its 10-element truncation
(`.slice(0, 10)` in `fetchNostrYearsStats`), so it never exceeds 10 entries and
never contains an identity with no outgoing reactions. -/
theorem calculateFriendScores_spec
    (oR oRp iR iRp : List (String × Nat)) :
    (∀ p, (∃ e ∈ calculateFriendScores oR oRp iR iRp, e.pubkey = p) ↔ 0 < countOf oR p) ∧
    (∀ e ∈ calculateFriendScores oR oRp iR iRp,
      e.outgoingReactions = countOf oR e.pubkey ∧
      e.outgoingReplies = countOf oRp e.pubkey ∧
      e.incomingReactions = countOf iR e.pubkey ∧
      e.incomingReplies = countOf iRp e.pubkey ∧
      e.balanceScore =
        (if e.outgoingReactions + e.outgoingReplies = 0 ∧
            e.incomingReactions + e.incomingReplies = 0 then 0
         else 1 - |((e.outgoingReactions + e.outgoingReplies : Nat) : ℚ) -
                   ((e.incomingReactions + e.incomingReplies : Nat) : ℚ)| /
                  (((e.outgoingReactions + e.outgoingReplies : Nat) : ℚ) +
                   ((e.incomingReactions + e.incomingReplies : Nat) : ℚ)))) ∧
    (calculateFriendScores oR oRp iR iRp).Sorted friendRel ∧
    ((calculateFriendScores oR oRp iR iRp).take 10).length ≤ 10 ∧
    ((calculateFriendScores oR oRp iR iRp).take 10).Sorted friendRel ∧
    (∀ e ∈ (calculateFriendScores oR oRp iR iRp).take 10, 0 < countOf oR e.pubkey) := by
  classical
  set mk : String → Option FriendScore := fun p =>
    let a := countOf oR p
    let b := countOf oRp p
    let c := countOf iR p
    let d := countOf iRp p
    if a = 0 then none
    else some ⟨p, a, b, c, d, calculateBalanceScore (a + b) (c + d)⟩ with hmk
  have hunfold : calculateFriendScores oR oRp iR iRp =
      (((oR.map Prod.fst ++ oRp.map Prod.fst ++ iR.map Prod.fst ++ iRp.map Prod.fst).foldl
          jsAdd []).filterMap mk).mergeSort friendLE := by
    rfl
  have hperm := List.mergeSort_perm
    (((oR.map Prod.fst ++ oRp.map Prod.fst ++ iR.map Prod.fst ++ iRp.map Prod.fst).foldl
        jsAdd []).filterMap mk) friendLE
  have hmem : ∀ e, e ∈ calculateFriendScores oR oRp iR iRp ↔
      ∃ p ∈ (oR.map Prod.fst ++ oRp.map Prod.fst ++ iR.map Prod.fst ++ iRp.map Prod.fst).foldl
          jsAdd [], mk p = some e := by
    intro e
    rw [hunfold, hperm.mem_iff, List.mem_filterMap]
  have hshape : ∀ p e, mk p = some e →
      e.pubkey = p ∧ e.outgoingReactions = countOf oR p ∧ e.outgoingReplies = countOf oRp p ∧
      e.incomingReactions = countOf iR p ∧ e.incomingReplies = countOf iRp p ∧
      e.balanceScore = calculateBalanceScore (countOf oR p + countOf oRp p)
        (countOf iR p + countOf iRp p) ∧ 0 < countOf oR p := by
    intro p e he
    rw [hmk] at he
    simp only at he
    by_cases h0 : countOf oR p = 0
    · simp [h0] at he
    · simp only [h0, if_false, Option.some_inj] at he
      subst he
      exact ⟨rfl, rfl, rfl, rfl, rfl, rfl, Nat.pos_of_ne_zero h0⟩
  refine ⟨?_, ?_, ?_, ?_, ?_, ?_⟩
  · intro p
    constructor
    · rintro ⟨e, he, rfl⟩
      obtain ⟨q, _, hq⟩ := (hmem e).mp he
      obtain ⟨hp, _, _, _, _, _, hpos⟩ := hshape q e hq
      rw [hp]
      exact hpos
    · intro hpos
      have hkey : p ∈ oR.map Prod.fst := by
        by_contra hnot
        rw [countOf, jsGet_eq_none_of_not_mem oR p hnot] at hpos
        simp at hpos
      have hin : p ∈ (oR.map Prod.fst ++ oRp.map Prod.fst ++ iR.map Prod.fst ++
          iRp.map Prod.fst).foldl jsAdd [] := by
        rw [mem_foldl_jsAdd]
        right
        simp [hkey]
      refine ⟨⟨p, countOf oR p, countOf oRp p, countOf iR p, countOf iRp p,
        calculateBalanceScore (countOf oR p + countOf oRp p) (countOf iR p + countOf iRp p)⟩,
        ?_, rfl⟩
      rw [hmem]
      refine ⟨p, hin, ?_⟩
      rw [hmk]
      simp only [Nat.pos_iff_ne_zero.mp hpos, if_false]
  · intro e he
    obtain ⟨p, _, hp⟩ := (hmem e).mp he
    obtain ⟨hpk, h1, h2, h3, h4, h5, _⟩ := hshape p e hp
    subst hpk
    refine ⟨h1, h2, h3, h4, ?_⟩
    rw [h5, calculateBalanceScore, h1, h2, h3, h4]
    by_cases hz : countOf oR e.pubkey + countOf oRp e.pubkey = 0 ∧
        countOf iR e.pubkey + countOf iRp e.pubkey = 0
    · simp [hz.1, hz.2]
    · have hzz : ¬ (countOf oR e.pubkey + countOf oRp e.pubkey) +
          (countOf iR e.pubkey + countOf iRp e.pubkey) = 0 := by omega
      simp only [hzz, if_false, hz, if_false]
  · rw [hunfold]
    have hs := @List.sorted_mergeSort _ friendLE friendLE_trans friendLE_total
      (((oR.map Prod.fst ++ oRp.map Prod.fst ++ iR.map Prod.fst ++ iRp.map Prod.fst).foldl
          jsAdd []).filterMap mk)
    exact hs.imp fun h => (friendLE_iff _ _).mp h
  · exact List.length_take_le 10 _
  · have hs : (calculateFriendScores oR oRp iR iRp).Sorted friendRel := by
      rw [hunfold]
      have hs := @List.sorted_mergeSort _ friendLE friendLE_trans friendLE_total
        (((oR.map Prod.fst ++ oRp.map Prod.fst ++ iR.map Prod.fst ++ iRp.map Prod.fst).foldl
            jsAdd []).filterMap mk)
      exact hs.imp fun h => (friendLE_iff _ _).mp h
    exact hs.sublist (List.take_sublist 10 _)
  · intro e he
    have he' : e ∈ calculateFriendScores oR oRp iR iRp :=
      (List.take_sublist 10 _).mem he
    obtain ⟨p, _, hp⟩ := (hmem e).mp he'
    obtain ⟨hpk, _, _, _, _, _, hpos⟩ := hshape p e hp
    rw [hpk]
    exact hpos

/-- Witness for C1 at a concrete interaction map: `alice` (2 outgoing
reactions) is ranked, and the no-outgoing-reaction identity `carol` is not. -/
theorem calculateFriendScores_spec_witness :
    0 < countOf [("alice", 2), ("bob", 0)] "alice" ∧
    (∃ e ∈ calculateFriendScores [("alice", 2), ("bob", 0)] []
        [("alice", 2)] [("carol", 5)], e.pubkey = "alice") ∧
    ¬ (∃ e ∈ calculateFriendScores [("alice", 2), ("bob", 0)] []
        [("alice", 2)] [("carol", 5)], e.pubkey = "carol") := by
  refine ⟨by decide, ?_, ?_⟩
  · exact ((calculateFriendScores_spec [("alice", 2), ("bob", 0)] []
      [("alice", 2)] [("carol", 5)]).1 "alice").mpr (by decide)
  · intro hc
    exact absurd (((calculateFriendScores_spec [("alice", 2), ("bob", 0)] []
      [("alice", 2)] [("carol", 5)]).1 "carol").mp hc) (by decide)

/-- Claim C2: `calculatePercentile` returns `round(100 - below/|population| * 100)`
where `below` counts the population values strictly less than the probe value,
returns `0` on the empty population, and `calculatePercentile 3 [1,2,3,4,5] = 60`. -/
theorem calculatePercentile_spec :
    (∀ (x : Int) (pop : List Int),
      calculatePercentile x pop =
        if pop = [] then 0
        else round ((100 : ℚ) - ((pop.countP fun v => decide (v < x)) : ℚ) / (pop.length : ℚ) * 100)) ∧
    calculatePercentile 3 [1, 2, 3, 4, 5] = 60 := by
  have hgen : ∀ (x : Int) (pop : List Int),
      calculatePercentile x pop =
        if pop = [] then 0
        else round ((100 : ℚ) - ((pop.countP fun v => decide (v < x)) : ℚ) / (pop.length : ℚ) * 100) := by
    intro x pop
    unfold calculatePercentile
    by_cases h : pop = []
    · simp [h]
    · simp only [h, if_false]
      have hperm : (pop.mergeSort fun a b => decide (a ≤ b)).Perm pop :=
        List.mergeSort_perm pop _
      rw [← hperm.countP_eq (fun v => decide (v < x)), ← hperm.length_eq]
      rw [List.countP_eq_length_filter]
  refine ⟨hgen, ?_⟩
  rw [hgen]
  norm_num [List.countP, List.countP.go, round_eq]
  decide

/-! ### Claim C4: time bucketing -/

/-- Claim C4 counterexample: at `created_at = 1735657200`
(2024-12-31T15:00:00Z, i.e. 2025-01-01 00:00 JST) a platform running at
UTC (offset `0`) computes the month key `"2024-12"`, while the fixed-UTC+9
convention the claim asserts gives `"2025-01"`: the month bucket follows the
platform's local timezone, not a fixed UTC+9 offset. -/
theorem getMonthKey_uses_local_timezone :
    getMonthKey 0 1735657200 = "2024-12" ∧
    specMonthKeyUTC9 1735657200 = "2025-01" ∧
    getMonthKey 0 1735657200 ≠ specMonthKeyUTC9 1735657200 := by
  refine ⟨by decide, by decide, by decide⟩

/-- Claim C4, amended: the month-bucket key is the calendar year-month of
`created_at` in the platform's local timezone (it agrees with the fixed
UTC+9 convention exactly on platforms with offset +540 minutes), while the
hour-of-day bucket is `(UTC hour + 9) mod 24`, an integer in `0..23`, which
does equal the hour of day under the fixed UTC+9 convention. -/
theorem getMonthKey_getHourJST_spec :
    (∀ ts : Int, getMonthKey 540 ts = specMonthKeyUTC9 ts) ∧
    (∀ ts : Int, getHourJST ts = specHourUTC9 ts ∧
      0 ≤ getHourJST ts ∧ getHourJST ts < 24) := by
  constructor
  · intro ts
    unfold getMonthKey specMonthKeyUTC9
    norm_num
  · intro ts
    unfold getHourJST specHourUTC9
    refine ⟨?_, ?_, ?_⟩ <;> omega

/-! ### Claim C3: the snapshot reconciler -/

theorem jsSortStrings_perm (l : List String) : (jsSortStrings l).Perm l :=
  List.mergeSort_perm l _

theorem jsSortStrings_sorted (l : List String) :
    (jsSortStrings l).Sorted (· ≤ ·) := by
  have h := @List.sorted_mergeSort _ (fun a b : String => decide (a ≤ b))
    (fun a b c hab hbc => by
      simp only [decide_eq_true_iff] at *
      exact le_trans hab hbc)
    (fun a b => by
      rcases le_total a b with h | h <;> simp [h])
    l
  exact h.imp fun h => of_decide_eq_true h

theorem zip_all_eq_iff (l₁ l₂ : List String) (h : l₁.length = l₂.length) :
    (((l₁.zip l₂).all fun p => p.1 == p.2) = true ↔ l₁ = l₂) := by
  induction l₁ generalizing l₂ with
  | nil =>
    cases l₂ with
    | nil => simp
    | cons b t => simp at h
  | cons a t ih =>
    cases l₂ with
    | nil => simp at h
    | cons b t₂ =>
      simp only [List.length_cons, Nat.succ_inj] at h
      simp [List.zip_cons_cons, List.all_cons, ih t₂ h, beq_iff_eq]

theorem arraysEqual_iff_perm (a b : List String) :
    arraysEqual a b = true ↔ a.Perm b := by
  unfold arraysEqual
  constructor
  · intro h
    rw [Bool.and_eq_true] at h
    obtain ⟨hlen, hall⟩ := h
    rw [beq_iff_eq] at hlen
    have hlen' : (jsSortStrings a).length = (jsSortStrings b).length := by
      rw [(jsSortStrings_perm a).length_eq, (jsSortStrings_perm b).length_eq]
      exact hlen
    have heq : jsSortStrings a = jsSortStrings b :=
      (zip_all_eq_iff _ _ hlen').mp hall
    exact ((jsSortStrings_perm a).symm.trans (heq ▸ jsSortStrings_perm b))
  · intro h
    have heq : jsSortStrings a = jsSortStrings b := by
      apply List.eq_of_perm_of_sorted
        ((jsSortStrings_perm a).trans (h.trans (jsSortStrings_perm b).symm))
        (jsSortStrings_sorted a) (jsSortStrings_sorted b)
    rw [Bool.and_eq_true, beq_iff_eq]
    refine ⟨h.length_eq, ?_⟩
    rw [heq, (zip_all_eq_iff _ _ rfl)]

/-- Characterization of the reconciler's cache hit: a published snapshot is
returned iff it is the fetched one, its version matches, and its relay list
is present and a permutation of the requested one.  The requested period
plays no role. -/
theorem fetchOwnWithRelays_some_iff (fetched : Option PublishedContent)
    (relays : List String) (c : PublishedContent) :
    fetchOwnNostrYearsEventWithRelays fetched relays = some c ↔
    (fetched = some c ∧ c.version = NOSTR_YEARS_VERSION ∧
     ∃ rs, c.relays = some rs ∧ rs.Perm relays) := by
  unfold fetchOwnNostrYearsEventWithRelays fetchOwnNostrYearsEvent
  cases fetched with
  | none => simp
  | some c₀ =>
    by_cases hv : c₀.version = NOSTR_YEARS_VERSION
    · simp only [hv, if_true]
      cases hrs : c₀.relays with
      | none =>
        simp only [Option.some_inj]
        constructor
        · intro h
          exact absurd h (by simp)
        · rintro ⟨rfl, _, rs, hrs', _⟩
          rw [hrs] at hrs'
          exact absurd hrs' (by simp)
      | some rs =>
        by_cases ha : arraysEqual rs relays = true
        · simp only [ha, if_true, Option.some_inj]
          constructor
          · rintro rfl
            exact ⟨rfl, hv, rs, hrs, (arraysEqual_iff_perm rs relays).mp ha⟩
          · rintro ⟨h, _, _⟩
            exact h.symm ▸ rfl
        · simp only [Bool.not_eq_true] at ha
          simp only [ha, Bool.false_eq_true, if_false]
          constructor
          · intro h
            exact absurd h (by simp)
          · rintro ⟨hc, _, rs', hrs', hperm⟩
            obtain rfl : c₀ = c := by injection hc
            rw [hrs] at hrs'
            obtain rfl : rs = rs' := by injection hrs'
            rw [(arraysEqual_iff_perm rs relays).mpr hperm] at ha
            simp at ha
    · simp only [hv, if_false]
      constructor
      · intro h
        exact absurd h (by simp)
      · rintro ⟨hc, hv', _⟩
        obtain rfl : c₀ = c := by injection hc
        exact absurd hv' hv

/-- Claim C3 counterexample: a published snapshot with the current version
and the requested relay set but period `[0, 1)` is returned as a cache hit
for a request whose window is `[100, 200)` — the reconciler never compares
the period. -/
theorem fetchOwnWithRelays_ignores_period :
    fetchOwnNostrYearsEventWithRelays
        (some ⟨3, some ["wss://a"], (0, 1)⟩) ["wss://a"] =
      some ⟨3, some ["wss://a"], (0, 1)⟩ ∧
    (⟨3, some ["wss://a"], (0, 1)⟩ : PublishedContent).period ≠ (100, 200) := by
  constructor
  · exact (fetchOwnWithRelays_some_iff _ _ _).mpr
      ⟨rfl, rfl, ["wss://a"], rfl, List.Perm.refl _⟩
  · decide

/-- Claim C3, amended: the cached-snapshot lookup returns a snapshot iff it
is the latest fetched one, its `version` equals the engine's current schema
version, and its `relays` list is present and equal to the requested relay
list as an unordered collection (a permutation — so a superset or subset is
never a hit); the requested `[sinceTs, untilTs)` window is not compared. -/
theorem fetchOwnWithRelays_spec (fetched : Option PublishedContent)
    (relays : List String) (c : PublishedContent) :
    fetchOwnNostrYearsEventWithRelays fetched relays = some c ↔
    (fetched = some c ∧ c.version = NOSTR_YEARS_VERSION ∧
     ∃ rs, c.relays = some rs ∧ rs.Perm relays) :=
  fetchOwnWithRelays_some_iff fetched relays c

/-- Witness for C3 at concrete input: a snapshot listing the requested
relays in a different order is a cache hit. -/
theorem fetchOwnWithRelays_spec_witness :
    fetchOwnNostrYearsEventWithRelays
        (some ⟨3, some ["wss://b", "wss://a"], (0, 10)⟩) ["wss://a", "wss://b"] =
      some ⟨3, some ["wss://b", "wss://a"], (0, 10)⟩ :=
  (fetchOwnWithRelays_spec _ _ _).mpr
    ⟨rfl, rfl, ["wss://b", "wss://a"], rfl, List.Perm.swap _ _ _⟩

/-! ### More association-list lemmas -/

theorem jsGet_jsSet_self [DecidableEq α] (m : List (α × β)) (k : α) (v : β) :
    jsGet (jsSet m k v) k = some v := by
  induction m with
  | nil => simp [jsGet, jsSet]
  | cons p t ih =>
    by_cases h : p.1 = k <;> simp [jsGet, jsSet, h, ih]

theorem jsGet_jsSet_ne [DecidableEq α] (m : List (α × β)) (k k' : α) (v : β)
    (h : k' ≠ k) : jsGet (jsSet m k v) k' = jsGet m k' := by
  have h' : ¬ k = k' := fun hh => h hh.symm
  induction m with
  | nil => simp [jsGet, jsSet, h']
  | cons p t ih =>
    by_cases hp : p.1 = k
    · have hp' : ¬ p.1 = k' := by rw [hp]; exact h'
      simp [jsGet, jsSet, hp, hp', h']
    · by_cases hq : p.1 = k'
      · simp [jsGet, jsSet, hp, hq, h]
      · simp [jsGet, jsSet, hp, hq, ih]

theorem keys_jsSet_of_mem [DecidableEq α] (m : List (α × β)) (k : α) (v : β)
    (h : k ∈ m.map Prod.fst) : (jsSet m k v).map Prod.fst = m.map Prod.fst := by
  induction m with
  | nil => simp at h
  | cons p t ih =>
    simp only [List.map_cons, List.mem_cons] at h
    by_cases hp : p.1 = k
    · simp [jsSet, hp]
    · rcases h with h | h
      · exact absurd h.symm hp
      · simp [jsSet, hp, ih h]

theorem countOf_addToCountMap_self [DecidableEq α] (m : List (α × Nat)) (k : α) :
    countOf (addToCountMap m k) k = countOf m k + 1 := by
  unfold addToCountMap countOf
  rw [jsGet_jsSet_self]
  rfl

theorem countOf_addToCountMap_ne [DecidableEq α] (m : List (α × Nat)) (k k' : α)
    (h : k' ≠ k) : countOf (addToCountMap m k) k' = countOf m k' := by
  unfold addToCountMap countOf
  rw [jsGet_jsSet_ne _ _ _ _ h]

theorem assoc_canonical [DecidableEq α] (M : List (α × β)) (ks : List α) (d : β)
    (hkeys : M.map Prod.fst = ks) (hnd : ks.Nodup) :
    M = ks.map fun k => (k, (jsGet M k).getD d) := by
  induction M generalizing ks with
  | nil =>
    subst hkeys
    rfl
  | cons p T ih =>
    obtain ⟨k, v⟩ := p
    cases ks with
    | nil => simp at hkeys
    | cons k₀ ks' =>
      simp only [List.map_cons, List.cons.injEq] at hkeys
      obtain ⟨hk0, hkeys'⟩ := hkeys
      cases hk0
      have hnd' := hnd.of_cons
      have hknot : k ∉ ks' := (List.nodup_cons.mp hnd).1
      simp only [List.map_cons]
      have hself : jsGet ((k, v) :: T) k = some v := by simp [jsGet]
      rw [hself]
      simp only [Option.getD_some, List.cons.injEq, true_and]
      have hmap : List.map (fun x => (x, (jsGet ((k, v) :: T) x).getD d)) ks' =
          List.map (fun x => (x, (jsGet T x).getD d)) ks' := by
        apply List.map_congr_left
        intro x hx
        have hxne : ¬ k = x := fun hh => hknot (hh ▸ hx)
        simp [jsGet, hxne]
      rw [hmap]
      exact ih ks' hkeys' hnd'

/-! ### Claim C7: progress monotonicity -/

/-- Claim C7 is violated by the code: even with no events at all, one
invocation emits the progress values `5, 40, 70, 65, 85, 90, 100` — the
unconditional "Processing data..." update carries `65` after the sent-zaps
phase already reported `70`, so the sequence delivered to `onProgress` is
not monotonically non-decreasing. -/
theorem progressSeq_not_monotone :
    progressSeq 0 100 [] [] = [5, 40, 70, 65, 85, 90, 100] ∧
    ¬ (progressSeq 0 100 [] []).Sorted (· ≤ ·) := by
  exact ⟨by rfl, by decide⟩

/-! ### Claim C6: incoming reactions -/

/-- Claim C6 counterexample: with no own events at all, an incoming
third-party reaction whose `e` tag references the foreign event `"xyz"`
still increments the subject's total-received-reactions counter — the code
only requires the presence of an `e` tag, not a reference to one of the
subject's own posts. -/
theorem receivedReactions_counted_without_own_post :
    (accumulateStats (fun _ => none) 540 "me" [] 0 100 []
      [⟨"r1", "bob", 7, 0, [["e", "xyz"]], "+"⟩] []).receivedReactionsCount = 1 := by
  rfl

/-- Claim C6, amended: a self-authored incoming event is ignored entirely;
an incoming reaction (kind 7) by another identity increments the
total-received-reactions counter and the "reaction received from X" record
if and only if it carries an `e` tag (referencing any event); when the first
`e` tag's value is one of the subject's own post ids, that post's reaction
counter is incremented as well, and otherwise the per-post counters are
untouched. -/
theorem processIncoming_reaction_spec
    (decode : String → Option (Option Nat)) (tz : Int) (subject : String)
    (s : AccState) (e : NostrEvent) :
    (e.pubkey = subject → processIncoming decode tz subject s e = s) ∧
    (e.pubkey ≠ subject → e.kind = 7 →
      ((findETag e.tags).isSome →
        (processIncoming decode tz subject s e).receivedReactionsCount =
          s.receivedReactionsCount + 1 ∧
        countOf (processIncoming decode tz subject s e).incomingReactions e.pubkey =
          countOf s.incomingReactions e.pubkey + 1) ∧
      (findETag e.tags = none → processIncoming decode tz subject s e = s) ∧
      (∀ t pid, findETag e.tags = some t → t[1]? = some pid →
        pid ∈ s.ownKind1Ids →
        countOf (processIncoming decode tz subject s e).kind1ReactionCounts pid =
          countOf s.kind1ReactionCounts pid + 1) ∧
      (∀ t pid, findETag e.tags = some t → t[1]? = some pid →
        pid ∉ s.ownKind1Ids →
        (processIncoming decode tz subject s e).kind1ReactionCounts =
          s.kind1ReactionCounts)) := by
  constructor
  · intro h
    unfold processIncoming
    simp [h]
  · intro hne hk
    unfold processIncoming
    simp only [hne, if_false, hk, if_true]
    cases hf : findETag e.tags with
    | none =>
      refine ⟨fun hs => by simp at hs, fun _ => rfl, ?_, ?_⟩
      · intro t pid ht
        simp at ht
      · intro t pid ht
        simp at ht
    | some t =>
      refine ⟨fun _ => ?_, fun hn => by simp at hn, ?_, ?_⟩
      · cases hv : t[1]? with
        | none => simp only [hv]; simp [countOf_addToCountMap_self]
        | some pid =>
          simp only [hv]
          by_cases hmem : pid ∈ s.ownKind1Ids <;>
            simp [hmem, countOf_addToCountMap_self]
      · intro t' pid ht hv hmem
        obtain rfl : t = t' := by injection ht
        simp only [hv, hmem, if_true]
        simp [countOf, jsGet_jsSet_self]
      · intro t' pid ht hv hmem
        obtain rfl : t = t' := by injection ht
        simp [hv, hmem]

/-- Witness for the amended C6 at a concrete incoming reaction. -/
theorem processIncoming_reaction_spec_witness :
    (processIncoming (fun _ => none) 540 "me" initAcc
        ⟨"r1", "bob", 7, 0, [["e", "p1"]], "+"⟩).receivedReactionsCount =
      initAcc.receivedReactionsCount + 1 ∧
    countOf (processIncoming (fun _ => none) 540 "me" initAcc
        ⟨"r1", "bob", 7, 0, [["e", "p1"]], "+"⟩).incomingReactions "bob" =
      countOf initAcc.incomingReactions "bob" + 1 :=
  ((processIncoming_reaction_spec (fun _ => none) 540 "me" initAcc
      ⟨"r1", "bob", 7, 0, [["e", "p1"]], "+"⟩).2 (by decide) rfl).1 (by decide)

/-! ### Claim C5: zap decoding and aggregation -/

/-- Claim C5: the zap decoder returns the floor-divided satoshi value on a
well-formed invoice and `0` on any failure (it is a total function, so no
exception can escape); an event whose decoded amount is `0` leaves the
accumulator state — in particular `count` and `totalSats` of the receiving
aggregate — untouched, on both the received and the sent side; and each
aggregate's `averageSats` is `round(totalSats / count)` when `count > 0` and
`0` otherwise. -/
theorem extractSats_zap_spec :
    (∀ (decode : String → Option (Option Nat)) (inv : String) (m : Nat),
      decode inv = some (some m) →
      extractSatsFromBolt11 decode inv = m / 1000) ∧
    (∀ (decode : String → Option (Option Nat)) (inv : String),
      decode inv = none ∨ decode inv = some none →
      extractSatsFromBolt11 decode inv = 0) ∧
    (∀ (decode : String → Option (Option Nat)) (tz : Int) (subject : String)
        (s : AccState) (e : NostrEvent),
      e.kind = 9735 →
      (∀ t, findBolt11Tag e.tags = some t →
        extractSatsFromBolt11 decode ((t[1]?).getD "") = 0) →
      processIncoming decode tz subject s e = s) ∧
    (∀ (decode : String → Option (Option Nat)) (tz : Int)
        (s : AccState) (e : NostrEvent),
      (∀ t, findBolt11Tag e.tags = some t →
        extractSatsFromBolt11 decode ((t[1]?).getD "") = 0) →
      processSentZap decode tz s e = s) ∧
    (∀ (decode : String → Option (Option Nat)) (tz : Int) (subject : String)
        (relays : List String) (ps pu : Int) (own inc zaps : List NostrEvent),
      (accumulateStats decode tz subject relays ps pu own inc zaps).zapsReceived.averageSats =
        (if 0 < (accumulateStats decode tz subject relays ps pu own inc zaps).zapsReceived.count
         then round (((accumulateStats decode tz subject relays ps pu own inc zaps).zapsReceived.totalSats : ℚ) /
           ((accumulateStats decode tz subject relays ps pu own inc zaps).zapsReceived.count : ℚ))
         else 0) ∧
      (accumulateStats decode tz subject relays ps pu own inc zaps).zapsSent.averageSats =
        (if 0 < (accumulateStats decode tz subject relays ps pu own inc zaps).zapsSent.count
         then round (((accumulateStats decode tz subject relays ps pu own inc zaps).zapsSent.totalSats : ℚ) /
           ((accumulateStats decode tz subject relays ps pu own inc zaps).zapsSent.count : ℚ))
         else 0)) := by
  refine ⟨?_, ?_, ?_, ?_, ?_⟩
  · intro decode inv m h
    unfold extractSatsFromBolt11
    rw [h]
  · intro decode inv h
    unfold extractSatsFromBolt11
    rcases h with h | h <;> rw [h]
  · intro decode tz subject s e hk hz
    unfold processIncoming
    by_cases hp : e.pubkey = subject
    · simp [hp]
    · have h7 : ¬ e.kind = 7 := by omega
      have h1 : ¬ e.kind = 1 := by omega
      rw [if_neg hp, if_neg h7, if_neg h1, if_pos hk]
      cases hf : findBolt11Tag e.tags with
      | none => rfl
      | some t =>
        dsimp only
        by_cases htv : ((t[1]?).getD "" : String) ≠ ""
        · rw [if_pos htv]
          simp only [hz t hf]
          simp
        · rw [if_neg htv]
  · intro decode tz s e hz
    unfold processSentZap
    cases hf : findBolt11Tag e.tags with
    | none => rfl
    | some t =>
      dsimp only
      by_cases htv : ((t[1]?).getD "" : String) ≠ ""
      · rw [if_pos htv]
        simp only [hz t hf]
        simp
      · rw [if_neg htv]
  · intro decode tz subject relays ps pu own inc zaps
    exact ⟨rfl, rfl⟩

/-- Witness for C5 at a concrete decoder and a concrete zero-amount zap
event. -/
theorem extractSats_zap_spec_witness :
    extractSatsFromBolt11 (fun _ => some (some 2500)) "lnbc1" = 2500 / 1000 ∧
    extractSatsFromBolt11 (fun _ => none) "garbage" = 0 ∧
    processIncoming (fun _ => some (some 900)) 540 "me" initAcc
        ⟨"z1", "bob", 9735, 0, [["bolt11", "lnbc0"]], ""⟩ = initAcc :=
  ⟨extractSats_zap_spec.1 (fun _ => some (some 2500)) "lnbc1" 2500 rfl,
   extractSats_zap_spec.2.1 (fun _ => none) "garbage" (Or.inl rfl),
   extractSats_zap_spec.2.2.1 (fun _ => some (some 900)) 540 "me" initAcc
     ⟨"z1", "bob", 9735, 0, [["bolt11", "lnbc0"]], ""⟩ rfl
     (fun t ht => by
       obtain rfl : (["bolt11", "lnbc0"] : List String) = t := by
         simpa [findBolt11Tag, List.find?] using ht
       decide)⟩

/-! ### Generic stable-sort canonicity lemmas -/

theorem le_bool_trans {α κ : Type} [LinearOrder κ] (key : α → κ)
    (le : α → α → Bool) (hle : ∀ a b, le a b = true ↔ key a ≤ key b) :
    ∀ a b c, le a b = true → le b c = true → le a c = true := by
  intro a b c hab hbc
  rw [hle] at *
  exact le_trans hab hbc

theorem le_bool_total {α κ : Type} [LinearOrder κ] (key : α → κ)
    (le : α → α → Bool) (hle : ∀ a b, le a b = true ↔ key a ≤ key b) :
    ∀ a b, (le a b || le b a) = true := by
  intro a b
  rcases le_total (key a) (key b) with h | h
  · rw [Bool.or_eq_true, hle]
    exact Or.inl h
  · rw [Bool.or_eq_true, hle b a]
    exact Or.inr h

theorem strict_of_pairwise_le_nodup {α κ : Type} [LinearOrder κ] (key : α → κ)
    (L : List α) (hpair : L.Pairwise fun a b => key a ≤ key b)
    (hnd : (L.map key).Nodup) : L.Pairwise fun a b => key a < key b := by
  have hne : L.Pairwise fun a b => key a ≠ key b := List.pairwise_map.mp hnd
  exact (hpair.and hne).imp fun h => lt_of_le_of_ne h.1 h.2

theorem mergeSort_eq_self_of_key_sorted {α κ : Type} [LinearOrder κ]
    (key : α → κ) (le : α → α → Bool)
    (hle : ∀ a b, le a b = true ↔ key a ≤ key b) (L : List α)
    (hstrict : L.Pairwise fun a b => key a < key b) : L.mergeSort le = L := by
  have hperm := List.mergeSort_perm L le
  have hpair : (L.mergeSort le).Pairwise fun a b => key a ≤ key b :=
    (List.sorted_mergeSort (le_bool_trans key le hle) (le_bool_total key le hle)
      L).imp fun h => (hle _ _).mp h
  have hndL : (L.map key).Nodup :=
    List.pairwise_map.mpr (hstrict.imp fun h => ne_of_lt h)
  have hndM : ((L.mergeSort le).map key).Nodup := ((hperm.map key).nodup_iff).mpr hndL
  have hstrictM := strict_of_pairwise_le_nodup key _ hpair hndM
  haveI : IsAntisymm α fun a b => key a < key b :=
    ⟨fun a b h1 h2 => absurd (h1.trans h2) (lt_irrefl _)⟩
  exact List.eq_of_perm_of_sorted hperm hstrictM hstrict

theorem mergeSort_eq_of_perm_nodup_keys {α κ : Type} [LinearOrder κ]
    (key : α → κ) (le : α → α → Bool)
    (hle : ∀ a b, le a b = true ↔ key a ≤ key b) (A B : List α)
    (hAB : A.Perm B) (hnd : (A.map key).Nodup) :
    A.mergeSort le = B.mergeSort le := by
  have hpermA := List.mergeSort_perm A le
  have hpermB := List.mergeSort_perm B le
  have hndA : ((A.mergeSort le).map key).Nodup := ((hpermA.map key).nodup_iff).mpr hnd
  have hndB : ((B.mergeSort le).map key).Nodup :=
    ((hpermB.map key).nodup_iff).mpr (((hAB.map key).nodup_iff).mp hnd)
  have hpairA : (A.mergeSort le).Pairwise fun a b => key a ≤ key b :=
    (List.sorted_mergeSort (le_bool_trans key le hle) (le_bool_total key le hle)
      A).imp fun h => (hle _ _).mp h
  have hpairB : (B.mergeSort le).Pairwise fun a b => key a ≤ key b :=
    (List.sorted_mergeSort (le_bool_trans key le hle) (le_bool_total key le hle)
      B).imp fun h => (hle _ _).mp h
  haveI : IsAntisymm α fun a b => key a < key b :=
    ⟨fun a b h1 h2 => absurd (h1.trans h2) (lt_irrefl _)⟩
  exact List.eq_of_perm_of_sorted (hpermA.trans (hAB.trans hpermB.symm))
    (strict_of_pairwise_le_nodup key _ hpairA hndA)
    (strict_of_pairwise_le_nodup key _ hpairB hndB)

/-! ### The hourly histogram -/

theorem getHourJST_range (ts : Int) : 0 ≤ getHourJST ts ∧ getHourJST ts < 24 := by
  unfold getHourJST
  omega

theorem mem_hourKeys (x : Int) (h0 : 0 ≤ x) (h24 : x < 24) :
    x ∈ (List.range 24).map fun h : Nat => (h : Int) := by
  simp only [List.mem_map, List.mem_range]
  exact ⟨x.toNat, by omega, show ((x.toNat : Nat) : Int) = x by omega⟩

theorem processOwn_hourlyMap (tz : Int) (subject : String) (s : AccState)
    (e : NostrEvent) :
    (processOwn tz subject s e).hourlyMap =
      (if countedKind e.kind then addToHourly s.hourlyMap e.created_at
       else s.hourlyMap) := by
  unfold processOwn countedKind
  by_cases h1 : e.kind = 1
  · rw [if_pos h1]
    by_cases hr : isReply e.tags <;> simp [hr, h1]
  · rw [if_neg h1]
    by_cases h6 : e.kind = 6
    · simp [h6]
    · rw [if_neg h6]
      by_cases h7 : e.kind = 7
      · simp [h7]
      · rw [if_neg h7]
        by_cases h42 : e.kind = 42
        · simp [h42]
        · rw [if_neg h42]
          by_cases h3 : e.kind = 30023
          · simp [h3]
          · rw [if_neg h3]
            have : countedKind e.kind = false := by
              unfold countedKind
              simp only [Bool.or_eq_false_iff, beq_eq_false_iff_ne, ne_eq]
              exact ⟨⟨⟨⟨h1, h6⟩, h7⟩, h42⟩, h3⟩
            unfold countedKind at this
            simp [h1, h6, h7, h42, h3]

theorem processIncoming_hourlyMap (decode : String → Option (Option Nat))
    (tz : Int) (subject : String) (s : AccState) (e : NostrEvent) :
    (processIncoming decode tz subject s e).hourlyMap = s.hourlyMap := by
  unfold processIncoming
  by_cases hp : e.pubkey = subject
  · simp [hp]
  · rw [if_neg hp]
    by_cases h7 : e.kind = 7
    · rw [if_pos h7]
      cases hf : findETag e.tags with
      | none => rfl
      | some t =>
        dsimp only
        cases hv : t[1]? with
        | none => simp [hv]
        | some pid =>
          simp only [hv]
          by_cases hmem : pid ∈ s.ownKind1Ids <;> simp [hmem]
    · rw [if_neg h7]
      by_cases h1 : e.kind = 1
      · rw [if_pos h1]
        by_cases hr : isReply e.tags <;> simp [hr]
      · rw [if_neg h1]
        by_cases h9 : e.kind = 9735
        · rw [if_pos h9]
          cases hf : findBolt11Tag e.tags with
          | none => rfl
          | some t =>
            dsimp only
            by_cases htv : ((t[1]?).getD "" : String) ≠ ""
            · rw [if_pos htv]
              by_cases hs : 0 < extractSatsFromBolt11 decode ((t[1]?).getD "") <;>
                simp [hs]
            · rw [if_neg htv]
        · rw [if_neg h9]

theorem processSentZap_hourlyMap (decode : String → Option (Option Nat))
    (tz : Int) (s : AccState) (e : NostrEvent) :
    (processSentZap decode tz s e).hourlyMap = s.hourlyMap := by
  unfold processSentZap
  cases hf : findBolt11Tag e.tags with
  | none => rfl
  | some t =>
    dsimp only
    by_cases htv : ((t[1]?).getD "" : String) ≠ ""
    · rw [if_pos htv]
      by_cases hs : 0 < extractSatsFromBolt11 decode ((t[1]?).getD "") <;> simp [hs]
    · rw [if_neg htv]

theorem ownHourCount_cons (e : NostrEvent) (es : List NostrEvent) (h : Int) :
    ownHourCount (e :: es) h =
      (if countedKind e.kind && getHourJST e.created_at == h then 1 else 0) +
        ownHourCount es h := by
  unfold ownHourCount
  by_cases hc : (countedKind e.kind && getHourJST e.created_at == h) = true
  · simp [List.filter_cons, hc]
    omega
  · simp only [Bool.not_eq_true] at hc
    simp [List.filter_cons, hc]

theorem foldOwn_hourly (tz : Int) (subject : String) (es : List NostrEvent) :
    ∀ s : AccState,
      s.hourlyMap.map Prod.fst = ((List.range 24).map fun h : Nat => (h : Int)) →
      ((es.foldl (processOwn tz subject) s).hourlyMap.map Prod.fst =
        ((List.range 24).map fun h : Nat => (h : Int))) ∧
      (∀ h : Int,
        (jsGet (es.foldl (processOwn tz subject) s).hourlyMap h).getD 0 =
          (jsGet s.hourlyMap h).getD 0 + ownHourCount es h) := by
  induction es with
  | nil =>
    intro s hkeys
    refine ⟨hkeys, fun h => ?_⟩
    simp [ownHourCount]
  | cons e es ih =>
    intro s hkeys
    have hmem : getHourJST e.created_at ∈ s.hourlyMap.map Prod.fst := by
      rw [hkeys]
      exact mem_hourKeys _ (getHourJST_range e.created_at).1
        (getHourJST_range e.created_at).2
    have hkeys' : (processOwn tz subject s e).hourlyMap.map Prod.fst =
        ((List.range 24).map fun h : Nat => (h : Int)) := by
      rw [processOwn_hourlyMap]
      by_cases hc : countedKind e.kind
      · rw [if_pos hc]
        unfold addToHourly
        rw [keys_jsSet_of_mem _ _ _ hmem]
        exact hkeys
      · rw [if_neg hc]
        exact hkeys
    obtain ⟨hk, hv⟩ := ih (processOwn tz subject s e) hkeys'
    refine ⟨hk, fun h => ?_⟩
    rw [List.foldl_cons, hv h, ownHourCount_cons]
    rw [processOwn_hourlyMap]
    by_cases hc : countedKind e.kind
    · rw [if_pos hc]
      unfold addToHourly
      by_cases hh : h = getHourJST e.created_at
      · subst hh
        rw [jsGet_jsSet_self]
        simp [hc]
        omega
      · rw [jsGet_jsSet_ne _ _ _ _ hh]
        have : (getHourJST e.created_at == h) = false := by
          simp only [beq_eq_false_iff_ne, ne_eq]
          exact fun hx => hh hx.symm
        simp [this]
    · rw [if_neg hc]
      simp only [Bool.not_eq_true] at hc
      simp [hc]

theorem foldIncoming_hourly (decode : String → Option (Option Nat)) (tz : Int)
    (subject : String) (es : List NostrEvent) (s : AccState) :
    (es.foldl (processIncoming decode tz subject) s).hourlyMap = s.hourlyMap := by
  induction es generalizing s with
  | nil => rfl
  | cons e es ih =>
    rw [List.foldl_cons, ih, processIncoming_hourlyMap]

theorem foldSentZap_hourly (decode : String → Option (Option Nat)) (tz : Int)
    (es : List NostrEvent) (s : AccState) :
    (es.foldl (processSentZap decode tz) s).hourlyMap = s.hourlyMap := by
  induction es generalizing s with
  | nil => rfl
  | cons e es ih =>
    rw [List.foldl_cons, ih, processSentZap_hourlyMap]

theorem getD_jsGet_map_const {α : Type} [DecidableEq α] (ks : List α) (x : α) :
    (jsGet (ks.map fun k => (k, (0 : Nat))) x).getD 0 = 0 := by
  induction ks with
  | nil => simp [jsGet]
  | cons k t ih =>
    by_cases h : k = x <;> simp [jsGet, h, ih]

theorem hourly_canonical (decode : String → Option (Option Nat)) (tz : Int)
    (subject : String) (relays : List String) (ps pu : Int)
    (own inc zaps : List NostrEvent) :
    (accumulateStats decode tz subject relays ps pu own inc zaps).hourlyActivity =
      ((List.range 24).map fun h : Nat => HourlyActivity.mk (h : Int) (ownHourCount own h)) := by
  have hinit : (initAcc.hourlyMap.map Prod.fst) =
      ((List.range 24).map fun h : Nat => (h : Int)) := by
    decide
  obtain ⟨hk, hv⟩ := foldOwn_hourly tz subject own initAcc hinit
  have hM : (accumulateStats decode tz subject relays ps pu own inc zaps).hourlyActivity =
      ((((own.foldl (processOwn tz subject) initAcc).hourlyMap).map
        fun p => HourlyActivity.mk p.1 p.2).mergeSort hourLE) := by
    unfold accumulateStats
    dsimp only
    rw [foldSentZap_hourly, foldIncoming_hourly]
  rw [hM]
  have hvals : ∀ h : Int,
      (jsGet (own.foldl (processOwn tz subject) initAcc).hourlyMap h).getD 0 =
        ownHourCount own h := by
    intro h
    rw [hv h]
    have hrw : initAcc.hourlyMap =
        ((List.range 24).map fun h : Nat => (h : Int)).map fun k => (k, (0 : Nat)) := by
      decide
    have : (jsGet initAcc.hourlyMap h).getD 0 = 0 := by
      rw [hrw]
      exact getD_jsGet_map_const _ h
    rw [this]
    omega
  have hnd : ((List.range 24).map fun h : Nat => (h : Int)).Nodup :=
    (List.nodup_range 24).map fun a b hab => by exact_mod_cast hab
  have hcanon := assoc_canonical ((own.foldl (processOwn tz subject) initAcc).hourlyMap)
    ((List.range 24).map fun h : Nat => (h : Int)) 0 hk hnd
  have hlist : ((own.foldl (processOwn tz subject) initAcc).hourlyMap).map
        (fun p => HourlyActivity.mk p.1 p.2) =
      (List.range 24).map fun h : Nat => HourlyActivity.mk (h : Int) (ownHourCount own h) := by
    rw [hcanon, List.map_map, List.map_map]
    apply List.map_congr_left
    intro h _
    simp only [Function.comp_apply]
    rw [hvals]
  rw [hlist]
  apply mergeSort_eq_self_of_key_sorted (fun a : HourlyActivity => a.hour)
  · intro a b
    unfold hourLE
    exact decide_eq_true_iff
  · rw [List.pairwise_map]
    exact (List.pairwise_lt_range 24).imp fun h => by dsimp only; exact_mod_cast h

/-- Claim C10: every produced snapshot's `hourlyActivity` is exactly the
24-entry list for hours `0..23` in ascending order, the count at hour `h`
being the number of own counted events bucketed there — in particular `0`
for hours without events, and all zeros when no events were retrieved. -/
theorem hourlyActivity_spec (decode : String → Option (Option Nat)) (tz : Int)
    (subject : String) (relays : List String) (ps pu : Int)
    (own inc zaps : List NostrEvent) :
    (accumulateStats decode tz subject relays ps pu own inc zaps).hourlyActivity =
      ((List.range 24).map fun h : Nat => HourlyActivity.mk (h : Int) (ownHourCount own h)) ∧
    (accumulateStats decode tz subject relays ps pu own inc zaps).hourlyActivity.length = 24 ∧
    (accumulateStats decode tz subject relays ps pu [] inc zaps).hourlyActivity =
      ((List.range 24).map fun h : Nat => HourlyActivity.mk (h : Int) 0) := by
  refine ⟨hourly_canonical decode tz subject relays ps pu own inc zaps, ?_, ?_⟩
  · rw [hourly_canonical decode tz subject relays ps pu own inc zaps]
    simp
  · rw [hourly_canonical decode tz subject relays ps pu [] inc zaps]
    simp [ownHourCount]

/-! ### Scalar field characterizations of the three folds -/

theorem processOwn_scalars (tz : Int) (subj : String) (s : AccState)
    (e : NostrEvent) :
    (processOwn tz subj s e).kind1Count = s.kind1Count + (if e.kind = 1 then 1 else 0) ∧
    (processOwn tz subj s e).kind6Count = s.kind6Count + (if e.kind = 6 then 1 else 0) ∧
    (processOwn tz subj s e).kind7Count = s.kind7Count + (if e.kind = 7 then 1 else 0) ∧
    (processOwn tz subj s e).kind42Count = s.kind42Count + (if e.kind = 42 then 1 else 0) ∧
    (processOwn tz subj s e).kind30023Count = s.kind30023Count + (if e.kind = 30023 then 1 else 0) ∧
    (processOwn tz subj s e).kind1Chars =
      s.kind1Chars + (if e.kind = 1 then countCharsWithoutUrls e.content else 0) ∧
    (processOwn tz subj s e).kind30023Chars =
      s.kind30023Chars + (if e.kind = 30023 then countCharsWithoutUrls e.content else 0) ∧
    (processOwn tz subj s e).imageCount =
      s.imageCount + (if e.kind = 1 then countImages e.content else 0) ∧
    (processOwn tz subj s e).receivedReactionsCount = s.receivedReactionsCount ∧
    (processOwn tz subj s e).zapsReceivedCount = s.zapsReceivedCount ∧
    (processOwn tz subj s e).zapsReceivedTotal = s.zapsReceivedTotal ∧
    (processOwn tz subj s e).zapsSentCount = s.zapsSentCount ∧
    (processOwn tz subj s e).zapsSentTotal = s.zapsSentTotal := by
  unfold processOwn
  by_cases h1 : e.kind = 1
  · rw [if_pos h1]
    by_cases hr : isReply e.tags <;> simp [hr, h1]
  · rw [if_neg h1]
    by_cases h6 : e.kind = 6
    · simp [h6, h1]
    · rw [if_neg h6]
      by_cases h7 : e.kind = 7
      · simp [h7, h1, h6]
      · rw [if_neg h7]
        by_cases h42 : e.kind = 42
        · simp [h42, h1, h6, h7]
        · rw [if_neg h42]
          by_cases h3 : e.kind = 30023
          · simp [h3, h1, h6, h7, h42]
          · rw [if_neg h3]
            simp [h1, h6, h7, h42, h3]

theorem foldOwn_scalars (tz : Int) (subj : String) (es : List NostrEvent) :
    ∀ s : AccState,
      ((es.foldl (processOwn tz subj) s).kind1Count = s.kind1Count + ownKindCount 1 es) ∧
      ((es.foldl (processOwn tz subj) s).kind6Count = s.kind6Count + ownKindCount 6 es) ∧
      ((es.foldl (processOwn tz subj) s).kind7Count = s.kind7Count + ownKindCount 7 es) ∧
      ((es.foldl (processOwn tz subj) s).kind42Count = s.kind42Count + ownKindCount 42 es) ∧
      ((es.foldl (processOwn tz subj) s).kind30023Count = s.kind30023Count + ownKindCount 30023 es) ∧
      ((es.foldl (processOwn tz subj) s).kind1Chars = s.kind1Chars + ownCharSum 1 es) ∧
      ((es.foldl (processOwn tz subj) s).kind30023Chars = s.kind30023Chars + ownCharSum 30023 es) ∧
      ((es.foldl (processOwn tz subj) s).imageCount = s.imageCount + ownImageSum es) ∧
      ((es.foldl (processOwn tz subj) s).receivedReactionsCount = s.receivedReactionsCount) ∧
      ((es.foldl (processOwn tz subj) s).zapsReceivedCount = s.zapsReceivedCount) ∧
      ((es.foldl (processOwn tz subj) s).zapsReceivedTotal = s.zapsReceivedTotal) ∧
      ((es.foldl (processOwn tz subj) s).zapsSentCount = s.zapsSentCount) ∧
      ((es.foldl (processOwn tz subj) s).zapsSentTotal = s.zapsSentTotal) := by
  induction es with
  | nil =>
    intro s
    simp [ownKindCount, ownCharSum, ownImageSum]
  | cons e es ih =>
    intro s
    obtain ⟨i1, i6, i7, i42, i3, ic1, ic3, iim, irr, izc, izt, isc, ist⟩ :=
      ih (processOwn tz subj s e)
    obtain ⟨p1, p6, p7, p42, p3, pc1, pc3, pim, prr, pzc, pzt, psc, pst⟩ :=
      processOwn_scalars tz subj s e
    rw [List.foldl_cons]
    refine ⟨?_, ?_, ?_, ?_, ?_, ?_, ?_, ?_, ?_, ?_, ?_, ?_, ?_⟩
    · rw [i1, p1]
      unfold ownKindCount
      rw [List.countP_cons]
      by_cases hk : e.kind = 1 <;> simp [hk] <;> omega
    · rw [i6, p6]
      unfold ownKindCount
      rw [List.countP_cons]
      by_cases hk : e.kind = 6 <;> simp [hk] <;> omega
    · rw [i7, p7]
      unfold ownKindCount
      rw [List.countP_cons]
      by_cases hk : e.kind = 7 <;> simp [hk] <;> omega
    · rw [i42, p42]
      unfold ownKindCount
      rw [List.countP_cons]
      by_cases hk : e.kind = 42 <;> simp [hk] <;> omega
    · rw [i3, p3]
      unfold ownKindCount
      rw [List.countP_cons]
      by_cases hk : e.kind = 30023 <;> simp [hk] <;> omega
    · rw [ic1, pc1]
      unfold ownCharSum
      rw [List.filter_cons]
      by_cases hk : e.kind = 1 <;> simp [hk] <;> omega
    · rw [ic3, pc3]
      unfold ownCharSum
      rw [List.filter_cons]
      by_cases hk : e.kind = 30023 <;> simp [hk] <;> omega
    · rw [iim, pim]
      unfold ownImageSum
      rw [List.filter_cons]
      by_cases hk : e.kind = 1 <;> simp [hk] <;> omega
    · rw [irr, prr]
    · rw [izc, pzc]
    · rw [izt, pzt]
    · rw [isc, psc]
    · rw [ist, pst]

theorem processIncoming_scalars (decode : String → Option (Option Nat))
    (tz : Int) (subj : String) (s : AccState) (e : NostrEvent) :
    (processIncoming decode tz subj s e).kind1Count = s.kind1Count ∧
    (processIncoming decode tz subj s e).kind6Count = s.kind6Count ∧
    (processIncoming decode tz subj s e).kind7Count = s.kind7Count ∧
    (processIncoming decode tz subj s e).kind42Count = s.kind42Count ∧
    (processIncoming decode tz subj s e).kind30023Count = s.kind30023Count ∧
    (processIncoming decode tz subj s e).kind1Chars = s.kind1Chars ∧
    (processIncoming decode tz subj s e).kind30023Chars = s.kind30023Chars ∧
    (processIncoming decode tz subj s e).imageCount = s.imageCount ∧
    (processIncoming decode tz subj s e).receivedReactionsCount =
      s.receivedReactionsCount +
        (if (e.pubkey != subj) && (e.kind == 7) && (findETag e.tags).isSome
         then 1 else 0) ∧
    (processIncoming decode tz subj s e).zapsReceivedCount =
      s.zapsReceivedCount +
        (if (e.pubkey != subj) && (e.kind == 9735) && decide (0 < zapSats decode e)
         then 1 else 0) ∧
    (processIncoming decode tz subj s e).zapsReceivedTotal =
      s.zapsReceivedTotal +
        (if (e.pubkey != subj) && (e.kind == 9735) then zapSats decode e else 0) ∧
    (processIncoming decode tz subj s e).zapsSentCount = s.zapsSentCount ∧
    (processIncoming decode tz subj s e).zapsSentTotal = s.zapsSentTotal := by
  unfold processIncoming
  by_cases hp : e.pubkey = subj
  · simp [hp]
  · rw [if_neg hp]
    by_cases h7 : e.kind = 7
    · rw [if_pos h7]
      cases hf : findETag e.tags with
      | none => simp [hp, h7, hf]
      | some t =>
        dsimp only
        cases hv : t[1]? with
        | none => simp [hp, h7, hf, hv]
        | some pid =>
          simp only [hv]
          by_cases hmem : pid ∈ s.ownKind1Ids <;> simp [hp, h7, hf, hmem]
    · rw [if_neg h7]
      by_cases h1 : e.kind = 1
      · rw [if_pos h1]
        have h79 : ¬ e.kind = 9735 := by omega
        by_cases hr : isReply e.tags <;> simp [hr, hp, h1, h7, h79]
      · rw [if_neg h1]
        by_cases h9 : e.kind = 9735
        · rw [if_pos h9]
          cases hf : findBolt11Tag e.tags with
          | none =>
            have hz : zapSats decode e = 0 := by
              unfold zapSats
              rw [hf]
            simp [hp, h7, h9, hz]
          | some t =>
            dsimp only
            have hz : zapSats decode e =
                (if (t[1]?).getD "" ≠ "" then
                  extractSatsFromBolt11 decode ((t[1]?).getD "") else 0) := by
              unfold zapSats
              rw [hf]
            by_cases htv : ((t[1]?).getD "" : String) ≠ ""
            · rw [if_pos htv]
              rw [if_pos htv] at hz
              by_cases hs : 0 < extractSatsFromBolt11 decode ((t[1]?).getD "")
              · rw [if_pos hs]
                simp [hp, h7, h9, hz, hs]
              · rw [if_neg hs]
                have hz0 : zapSats decode e = 0 := by omega
                simp [hp, h7, h9, hz0]
            · rw [if_neg htv]
              rw [if_neg htv] at hz
              simp [hp, h7, h9, hz]
        · rw [if_neg h9]
          simp [hp, h7, h9]

theorem foldInc_scalars (decode : String → Option (Option Nat)) (tz : Int)
    (subj : String) (es : List NostrEvent) :
    ∀ s : AccState,
      ((es.foldl (processIncoming decode tz subj) s).kind1Count = s.kind1Count) ∧
      ((es.foldl (processIncoming decode tz subj) s).kind6Count = s.kind6Count) ∧
      ((es.foldl (processIncoming decode tz subj) s).kind7Count = s.kind7Count) ∧
      ((es.foldl (processIncoming decode tz subj) s).kind42Count = s.kind42Count) ∧
      ((es.foldl (processIncoming decode tz subj) s).kind30023Count = s.kind30023Count) ∧
      ((es.foldl (processIncoming decode tz subj) s).kind1Chars = s.kind1Chars) ∧
      ((es.foldl (processIncoming decode tz subj) s).kind30023Chars = s.kind30023Chars) ∧
      ((es.foldl (processIncoming decode tz subj) s).imageCount = s.imageCount) ∧
      ((es.foldl (processIncoming decode tz subj) s).receivedReactionsCount =
        s.receivedReactionsCount + incReactionCount subj es) ∧
      ((es.foldl (processIncoming decode tz subj) s).zapsReceivedCount =
        s.zapsReceivedCount + incZapCount decode subj es) ∧
      ((es.foldl (processIncoming decode tz subj) s).zapsReceivedTotal =
        s.zapsReceivedTotal + incZapTotal decode subj es) ∧
      ((es.foldl (processIncoming decode tz subj) s).zapsSentCount = s.zapsSentCount) ∧
      ((es.foldl (processIncoming decode tz subj) s).zapsSentTotal = s.zapsSentTotal) := by
  induction es with
  | nil =>
    intro s
    simp [incReactionCount, incZapCount, incZapTotal]
  | cons e es ih =>
    intro s
    obtain ⟨i1, i6, i7, i42, i3, ic1, ic3, iim, irr, izc, izt, isc, ist⟩ :=
      ih (processIncoming decode tz subj s e)
    obtain ⟨p1, p6, p7, p42, p3, pc1, pc3, pim, prr, pzc, pzt, psc, pst⟩ :=
      processIncoming_scalars decode tz subj s e
    rw [List.foldl_cons]
    refine ⟨?_, ?_, ?_, ?_, ?_, ?_, ?_, ?_, ?_, ?_, ?_, ?_, ?_⟩
    · rw [i1, p1]
    · rw [i6, p6]
    · rw [i7, p7]
    · rw [i42, p42]
    · rw [i3, p3]
    · rw [ic1, pc1]
    · rw [ic3, pc3]
    · rw [iim, pim]
    · rw [irr, prr]
      unfold incReactionCount
      rw [List.countP_cons]
      omega
    · rw [izc, pzc]
      unfold incZapCount
      rw [List.countP_cons]
      omega
    · rw [izt, pzt]
      unfold incZapTotal
      rw [List.filter_cons]
      by_cases hk : ((e.pubkey != subj) && (e.kind == 9735)) = true <;>
        simp [hk] <;> omega
    · rw [isc, psc]
    · rw [ist, pst]

theorem processSentZap_scalars (decode : String → Option (Option Nat))
    (tz : Int) (s : AccState) (e : NostrEvent) :
    (processSentZap decode tz s e).kind1Count = s.kind1Count ∧
    (processSentZap decode tz s e).kind6Count = s.kind6Count ∧
    (processSentZap decode tz s e).kind7Count = s.kind7Count ∧
    (processSentZap decode tz s e).kind42Count = s.kind42Count ∧
    (processSentZap decode tz s e).kind30023Count = s.kind30023Count ∧
    (processSentZap decode tz s e).kind1Chars = s.kind1Chars ∧
    (processSentZap decode tz s e).kind30023Chars = s.kind30023Chars ∧
    (processSentZap decode tz s e).imageCount = s.imageCount ∧
    (processSentZap decode tz s e).receivedReactionsCount = s.receivedReactionsCount ∧
    (processSentZap decode tz s e).zapsReceivedCount = s.zapsReceivedCount ∧
    (processSentZap decode tz s e).zapsReceivedTotal = s.zapsReceivedTotal ∧
    (processSentZap decode tz s e).zapsSentCount =
      s.zapsSentCount + (if 0 < zapSats decode e then 1 else 0) ∧
    (processSentZap decode tz s e).zapsSentTotal =
      s.zapsSentTotal + zapSats decode e := by
  unfold processSentZap
  cases hf : findBolt11Tag e.tags with
  | none =>
    have hz : zapSats decode e = 0 := by
      unfold zapSats
      rw [hf]
    simp [hz]
  | some t =>
    dsimp only
    have hz : zapSats decode e =
        (if (t[1]?).getD "" ≠ "" then
          extractSatsFromBolt11 decode ((t[1]?).getD "") else 0) := by
      unfold zapSats
      rw [hf]
    by_cases htv : ((t[1]?).getD "" : String) ≠ ""
    · rw [if_pos htv]
      rw [if_pos htv] at hz
      by_cases hs : 0 < extractSatsFromBolt11 decode ((t[1]?).getD "")
      · rw [if_pos hs]
        simp [hz, hs]
      · rw [if_neg hs]
        have hz0 : zapSats decode e = 0 := by omega
        simp [hz0]
    · rw [if_neg htv]
      rw [if_neg htv] at hz
      simp [hz]

theorem foldSent_scalars (decode : String → Option (Option Nat)) (tz : Int)
    (es : List NostrEvent) :
    ∀ s : AccState,
      ((es.foldl (processSentZap decode tz) s).kind1Count = s.kind1Count) ∧
      ((es.foldl (processSentZap decode tz) s).kind6Count = s.kind6Count) ∧
      ((es.foldl (processSentZap decode tz) s).kind7Count = s.kind7Count) ∧
      ((es.foldl (processSentZap decode tz) s).kind42Count = s.kind42Count) ∧
      ((es.foldl (processSentZap decode tz) s).kind30023Count = s.kind30023Count) ∧
      ((es.foldl (processSentZap decode tz) s).kind1Chars = s.kind1Chars) ∧
      ((es.foldl (processSentZap decode tz) s).kind30023Chars = s.kind30023Chars) ∧
      ((es.foldl (processSentZap decode tz) s).imageCount = s.imageCount) ∧
      ((es.foldl (processSentZap decode tz) s).receivedReactionsCount =
        s.receivedReactionsCount) ∧
      ((es.foldl (processSentZap decode tz) s).zapsReceivedCount = s.zapsReceivedCount) ∧
      ((es.foldl (processSentZap decode tz) s).zapsReceivedTotal = s.zapsReceivedTotal) ∧
      ((es.foldl (processSentZap decode tz) s).zapsSentCount =
        s.zapsSentCount + sentZapCount decode es) ∧
      ((es.foldl (processSentZap decode tz) s).zapsSentTotal =
        s.zapsSentTotal + sentZapTotal decode es) := by
  induction es with
  | nil =>
    intro s
    simp [sentZapCount, sentZapTotal]
  | cons e es ih =>
    intro s
    obtain ⟨i1, i6, i7, i42, i3, ic1, ic3, iim, irr, izc, izt, isc, ist⟩ :=
      ih (processSentZap decode tz s e)
    obtain ⟨p1, p6, p7, p42, p3, pc1, pc3, pim, prr, pzc, pzt, psc, pst⟩ :=
      processSentZap_scalars decode tz s e
    rw [List.foldl_cons]
    refine ⟨?_, ?_, ?_, ?_, ?_, ?_, ?_, ?_, ?_, ?_, ?_, ?_, ?_⟩
    · rw [i1, p1]
    · rw [i6, p6]
    · rw [i7, p7]
    · rw [i42, p42]
    · rw [i3, p3]
    · rw [ic1, pc1]
    · rw [ic3, pc3]
    · rw [iim, pim]
    · rw [irr, prr]
    · rw [izc, pzc]
    · rw [izt, pzt]
    · rw [isc, psc]
      unfold sentZapCount
      rw [List.countP_cons]
      by_cases hs : 0 < zapSats decode e <;> simp [hs] <;> omega
    · rw [ist, pst]
      unfold sentZapTotal
      simp
      omega

/-! ### Monthly histogram: map structure lemmas -/

theorem keys_jsSet_full [DecidableEq α] (m : List (α × β)) (k : α) (v : β) :
    (jsSet m k v).map Prod.fst =
      (if k ∈ m.map Prod.fst then m.map Prod.fst else m.map Prod.fst ++ [k]) := by
  induction m with
  | nil => simp [jsSet]
  | cons p t ih =>
    by_cases hp : p.1 = k
    · simp [jsSet, hp]
    · have : ¬ k = p.1 := fun hh => hp hh.symm
      simp only [jsSet, hp, if_false, List.map_cons, List.mem_cons, this, false_or, ih]
      by_cases hk : k ∈ t.map Prod.fst <;> simp [hk]

theorem mem_keys_jsSet [DecidableEq α] (m : List (α × β)) (k : α) (v : β) (x : α) :
    x ∈ (jsSet m k v).map Prod.fst ↔ x ∈ m.map Prod.fst ∨ x = k := by
  rw [keys_jsSet_full]
  by_cases hk : k ∈ m.map Prod.fst
  · simp only [hk, if_true]
    constructor
    · exact Or.inl
    · rintro (h | rfl)
      · exact h
      · exact hk
  · simp [hk]

theorem nodup_keys_jsSet [DecidableEq α] (m : List (α × β)) (k : α) (v : β)
    (h : (m.map Prod.fst).Nodup) : ((jsSet m k v).map Prod.fst).Nodup := by
  rw [keys_jsSet_full]
  by_cases hk : k ∈ m.map Prod.fst
  · simp [hk, h]
  · simp [hk, h, List.nodup_append]

theorem jsGetD_addToMonthly (tz : Int) (m : List (String × MonthCounts))
    (ts : Int) (upd : MonthCounts → MonthCounts) (key : String) :
    (jsGet (addToMonthly tz m ts upd) key).getD zeroMonth =
      (if key = getMonthKey tz ts then upd ((jsGet m key).getD zeroMonth)
       else (jsGet m key).getD zeroMonth) := by
  unfold addToMonthly
  by_cases h : key = getMonthKey tz ts
  · rw [if_pos h, h, jsGet_jsSet_self]
    rfl
  · rw [if_neg h, jsGet_jsSet_ne _ _ _ _ h]

theorem mem_keys_addToMonthly (tz : Int) (m : List (String × MonthCounts))
    (ts : Int) (upd : MonthCounts → MonthCounts) (x : String) :
    x ∈ (addToMonthly tz m ts upd).map Prod.fst ↔
      x ∈ m.map Prod.fst ∨ x = getMonthKey tz ts :=
  mem_keys_jsSet _ _ _ _

theorem nodup_keys_addToMonthly (tz : Int) (m : List (String × MonthCounts))
    (ts : Int) (upd : MonthCounts → MonthCounts)
    (h : (m.map Prod.fst).Nodup) :
    ((addToMonthly tz m ts upd).map Prod.fst).Nodup :=
  nodup_keys_jsSet _ _ _ h

/-! ### Monthly histogram: per-event step lemmas -/

theorem processOwn_monthlyMap (tz : Int) (subj : String) (s : AccState)
    (e : NostrEvent) :
    (processOwn tz subj s e).monthlyMap =
      (if countedKind e.kind then
        addToMonthly tz s.monthlyMap e.created_at (monthUpdOwn e.kind)
       else s.monthlyMap) := by
  unfold processOwn
  by_cases h1 : e.kind = 1
  · rw [if_pos h1]
    have hu : monthUpdOwn 1 = fun c => { c with kind1 := c.kind1 + 1 } := by
      funext c
      simp [monthUpdOwn]
    by_cases hr : isReply e.tags <;> simp [hr, h1, countedKind, hu]
  · rw [if_neg h1]
    by_cases h6 : e.kind = 6
    · have hu : monthUpdOwn 6 = fun c => { c with kind6 := c.kind6 + 1 } := by
        funext c
        simp [monthUpdOwn]
      simp [h6, countedKind, hu]
    · rw [if_neg h6]
      by_cases h7 : e.kind = 7
      · have hu : monthUpdOwn 7 = fun c => { c with kind7 := c.kind7 + 1 } := by
          funext c
          simp [monthUpdOwn]
        simp [h7, h1, h6, countedKind, hu]
      · rw [if_neg h7]
        by_cases h42 : e.kind = 42
        · have hu : monthUpdOwn 42 = fun c => { c with kind42 := c.kind42 + 1 } := by
            funext c
            simp [monthUpdOwn]
          simp [h42, h1, h6, h7, countedKind, hu]
        · rw [if_neg h42]
          by_cases h3 : e.kind = 30023
          · have hu : monthUpdOwn 30023 =
                fun c => { c with kind30023 := c.kind30023 + 1 } := by
              funext c
              simp [monthUpdOwn]
            simp [h3, h1, h6, h7, h42, countedKind, hu]
          · rw [if_neg h3]
            simp [countedKind, h1, h6, h7, h42, h3]

theorem processIncoming_monthlyMap (decode : String → Option (Option Nat))
    (tz : Int) (subj : String) (s : AccState) (e : NostrEvent) :
    (processIncoming decode tz subj s e).monthlyMap =
      (if (e.pubkey != subj) && (e.kind == 7) && (findETag e.tags).isSome then
        addToMonthly tz s.monthlyMap e.created_at
          (fun c => { c with receivedReactions := c.receivedReactions + 1 })
       else if (e.pubkey != subj) && (e.kind == 9735) &&
           decide (0 < zapSats decode e) then
        addToMonthly tz s.monthlyMap e.created_at
          (fun c => { c with zapsReceived := c.zapsReceived + 1 })
       else s.monthlyMap) := by
  unfold processIncoming
  by_cases hp : e.pubkey = subj
  · simp [hp]
  · rw [if_neg hp]
    by_cases h7 : e.kind = 7
    · rw [if_pos h7]
      cases hf : findETag e.tags with
      | none => simp [hp, h7, hf]
      | some t =>
        dsimp only
        cases hv : t[1]? with
        | none => simp [hp, h7, hf, hv]
        | some pid =>
          simp only [hv]
          by_cases hmem : pid ∈ s.ownKind1Ids <;> simp [hp, h7, hf, hmem]
    · rw [if_neg h7]
      by_cases h1 : e.kind = 1
      · rw [if_pos h1]
        have h79 : ¬ e.kind = 9735 := by omega
        by_cases hr : isReply e.tags <;> simp [hr, hp, h1, h7, h79]
      · rw [if_neg h1]
        by_cases h9 : e.kind = 9735
        · rw [if_pos h9]
          cases hf : findBolt11Tag e.tags with
          | none =>
            have hz : zapSats decode e = 0 := by
              unfold zapSats
              rw [hf]
            simp [hp, h7, h9, hz]
          | some t =>
            dsimp only
            have hz : zapSats decode e =
                (if (t[1]?).getD "" ≠ "" then
                  extractSatsFromBolt11 decode ((t[1]?).getD "") else 0) := by
              unfold zapSats
              rw [hf]
            by_cases htv : ((t[1]?).getD "" : String) ≠ ""
            · rw [if_pos htv]
              rw [if_pos htv] at hz
              by_cases hs : 0 < extractSatsFromBolt11 decode ((t[1]?).getD "")
              · rw [if_pos hs]
                simp [hp, h7, h9, hz, hs]
              · rw [if_neg hs]
                have hz0 : zapSats decode e = 0 := by omega
                simp [hp, h7, h9, hz0]
            · rw [if_neg htv]
              rw [if_neg htv] at hz
              simp [hp, h7, h9, hz]
        · rw [if_neg h9]
          simp [hp, h7, h9]

theorem processSentZap_monthlyMap (decode : String → Option (Option Nat))
    (tz : Int) (s : AccState) (e : NostrEvent) :
    (processSentZap decode tz s e).monthlyMap =
      (if 0 < zapSats decode e then
        addToMonthly tz s.monthlyMap e.created_at
          (fun c => { c with zapsSent := c.zapsSent + 1 })
       else s.monthlyMap) := by
  unfold processSentZap
  cases hf : findBolt11Tag e.tags with
  | none =>
    have hz : zapSats decode e = 0 := by
      unfold zapSats
      rw [hf]
    simp [hz]
  | some t =>
    dsimp only
    have hz : zapSats decode e =
        (if (t[1]?).getD "" ≠ "" then
          extractSatsFromBolt11 decode ((t[1]?).getD "") else 0) := by
      unfold zapSats
      rw [hf]
    by_cases htv : ((t[1]?).getD "" : String) ≠ ""
    · rw [if_pos htv]
      rw [if_pos htv] at hz
      by_cases hs : 0 < extractSatsFromBolt11 decode ((t[1]?).getD "")
      · rw [if_pos hs]
        simp [hz, hs]
      · rw [if_neg hs]
        have hz0 : zapSats decode e = 0 := by omega
        simp [hz0]
    · rw [if_neg htv]
      rw [if_neg htv] at hz
      simp [hz]

/-! ### Monthly histogram: lookup-function evolution -/

theorem monthLookup_processOwn (tz : Int) (subj : String) (s : AccState)
    (e : NostrEvent) :
    monthLookup (processOwn tz subj s e) = mStepOwn tz (monthLookup s) e := by
  funext m
  unfold monthLookup mStepOwn bumpAt
  rw [processOwn_monthlyMap]
  by_cases hc : countedKind e.kind
  · rw [if_pos hc, if_pos hc, jsGetD_addToMonthly]
  · rw [if_neg hc, if_neg hc]

theorem monthLookup_processIncoming (decode : String → Option (Option Nat))
    (tz : Int) (subj : String) (s : AccState) (e : NostrEvent) :
    monthLookup (processIncoming decode tz subj s e) =
      mStepInc decode tz subj (monthLookup s) e := by
  funext m
  unfold monthLookup mStepInc bumpAt
  rw [processIncoming_monthlyMap]
  by_cases hc1 : ((e.pubkey != subj) && (e.kind == 7) && (findETag e.tags).isSome) = true
  · rw [if_pos hc1, if_pos hc1, jsGetD_addToMonthly]
  · rw [if_neg hc1, if_neg hc1]
    by_cases hc2 : ((e.pubkey != subj) && (e.kind == 9735) &&
        decide (0 < zapSats decode e)) = true
    · rw [if_pos hc2, if_pos hc2, jsGetD_addToMonthly]
    · rw [if_neg hc2, if_neg hc2]

theorem monthLookup_processSentZap (decode : String → Option (Option Nat))
    (tz : Int) (s : AccState) (e : NostrEvent) :
    monthLookup (processSentZap decode tz s e) =
      mStepSent decode tz (monthLookup s) e := by
  funext m
  unfold monthLookup mStepSent bumpAt
  rw [processSentZap_monthlyMap]
  by_cases hc : 0 < zapSats decode e
  · rw [if_pos hc, if_pos hc, jsGetD_addToMonthly]
  · rw [if_neg hc, if_neg hc]

theorem monthLookup_foldOwn (tz : Int) (subj : String) (es : List NostrEvent) :
    ∀ s : AccState,
      monthLookup (es.foldl (processOwn tz subj) s) =
        es.foldl (mStepOwn tz) (monthLookup s) := by
  induction es with
  | nil => intro s; rfl
  | cons e es ih =>
    intro s
    rw [List.foldl_cons, List.foldl_cons, ih, monthLookup_processOwn]

theorem monthLookup_foldInc (decode : String → Option (Option Nat)) (tz : Int)
    (subj : String) (es : List NostrEvent) :
    ∀ s : AccState,
      monthLookup (es.foldl (processIncoming decode tz subj) s) =
        es.foldl (mStepInc decode tz subj) (monthLookup s) := by
  induction es with
  | nil => intro s; rfl
  | cons e es ih =>
    intro s
    rw [List.foldl_cons, List.foldl_cons, ih, monthLookup_processIncoming]

theorem monthLookup_foldSent (decode : String → Option (Option Nat)) (tz : Int)
    (es : List NostrEvent) :
    ∀ s : AccState,
      monthLookup (es.foldl (processSentZap decode tz) s) =
        es.foldl (mStepSent decode tz) (monthLookup s) := by
  induction es with
  | nil => intro s; rfl
  | cons e es ih =>
    intro s
    rw [List.foldl_cons, List.foldl_cons, ih, monthLookup_processSentZap]

/-! ### Monthly histogram: commutativity of the lookup transitions -/

theorem bumpAt_comm (k k' : String) (u u' : MonthCounts → MonthCounts)
    (g : String → MonthCounts) (hcomm : ∀ c, u (u' c) = u' (u c)) :
    bumpAt k u (bumpAt k' u' g) = bumpAt k' u' (bumpAt k u g) := by
  funext m
  unfold bumpAt
  by_cases hkk : k = k'
  · subst hkk
    by_cases h1 : m = k <;> simp [h1, hcomm]
  · by_cases h1 : m = k
    · by_cases h2 : m = k'
      · exact absurd (h1.symm.trans h2) hkk
      · simp [h1, h2, hkk]
    · by_cases h2 : m = k' <;> simp [h1, h2, hkk, Ne.symm hkk]

theorem monthUpdOwn_fields (k : Nat) (c : MonthCounts) :
    monthUpdOwn k c =
      ⟨c.kind1 + (if k = 1 then 1 else 0), c.kind6 + (if k = 6 then 1 else 0),
       c.kind7 + (if k = 7 then 1 else 0), c.kind42 + (if k = 42 then 1 else 0),
       c.kind30023 + (if k = 30023 then 1 else 0), c.receivedReactions,
       c.zapsSent, c.zapsReceived⟩ := by
  unfold monthUpdOwn
  split_ifs <;> first | rfl | omega

theorem monthUpdOwn_comm (k k' : Nat) (c : MonthCounts) :
    monthUpdOwn k (monthUpdOwn k' c) = monthUpdOwn k' (monthUpdOwn k c) := by
  have hk : k = 1 ∨ k = 6 ∨ k = 7 ∨ k = 42 ∨ k = 30023 ∨
      (¬k = 1 ∧ ¬k = 6 ∧ ¬k = 7 ∧ ¬k = 42 ∧ ¬k = 30023) := by omega
  have hk' : k' = 1 ∨ k' = 6 ∨ k' = 7 ∨ k' = 42 ∨ k' = 30023 ∨
      (¬k' = 1 ∧ ¬k' = 6 ∧ ¬k' = 7 ∧ ¬k' = 42 ∧ ¬k' = 30023) := by omega
  rcases hk with rfl | rfl | rfl | rfl | rfl | ⟨n1, n2, n3, n4, n5⟩ <;>
    rcases hk' with rfl | rfl | rfl | rfl | rfl | ⟨m1, m2, m3, m4, m5⟩ <;>
    simp [monthUpdOwn, *]

theorem mStepOwn_comm (tz : Int) (g : String → MonthCounts)
    (e e' : NostrEvent) :
    mStepOwn tz (mStepOwn tz g e) e' = mStepOwn tz (mStepOwn tz g e') e := by
  unfold mStepOwn
  by_cases hc : countedKind e.kind <;> by_cases hc' : countedKind e'.kind <;>
    simp [hc, hc']
  exact bumpAt_comm _ _ _ _ g fun c => monthUpdOwn_comm _ _ c

theorem mStepInc_comm (decode : String → Option (Option Nat)) (tz : Int)
    (subj : String) (g : String → MonthCounts) (e e' : NostrEvent) :
    mStepInc decode tz subj (mStepInc decode tz subj g e) e' =
      mStepInc decode tz subj (mStepInc decode tz subj g e') e := by
  unfold mStepInc
  split_ifs <;>
    first
      | rfl
      | exact bumpAt_comm _ _ _ _ g fun c => rfl

theorem mStepSent_comm (decode : String → Option (Option Nat)) (tz : Int)
    (g : String → MonthCounts) (e e' : NostrEvent) :
    mStepSent decode tz (mStepSent decode tz g e) e' =
      mStepSent decode tz (mStepSent decode tz g e') e := by
  unfold mStepSent
  split_ifs <;>
    first
      | rfl
      | exact bumpAt_comm _ _ _ _ g fun c => rfl

/-! ### Monthly histogram: key-set evolution -/

theorem mem_keys_foldOwn (tz : Int) (subj : String) (es : List NostrEvent) :
    ∀ (s : AccState) (x : String),
      (x ∈ (es.foldl (processOwn tz subj) s).monthlyMap.map Prod.fst ↔
        x ∈ s.monthlyMap.map Prod.fst ∨
          ∃ e ∈ es, countedKind e.kind ∧ x = getMonthKey tz e.created_at) := by
  induction es with
  | nil =>
    intro s x
    simp
  | cons e es ih =>
    intro s x
    rw [List.foldl_cons, ih (processOwn tz subj s e) x, processOwn_monthlyMap]
    by_cases hc : countedKind e.kind
    · rw [if_pos hc, mem_keys_addToMonthly]
      simp only [List.mem_cons]
      constructor
      · rintro ((h | h) | ⟨e', he', h⟩)
        · exact Or.inl h
        · exact Or.inr ⟨e, Or.inl rfl, hc, h⟩
        · exact Or.inr ⟨e', Or.inr he', h⟩
      · rintro (h | ⟨e', he' | he', h⟩)
        · exact Or.inl (Or.inl h)
        · exact Or.inl (Or.inr (he' ▸ h.2))
        · exact Or.inr ⟨e', he', h⟩
    · rw [if_neg hc]
      simp only [List.mem_cons]
      constructor
      · rintro (h | ⟨e', he', h⟩)
        · exact Or.inl h
        · exact Or.inr ⟨e', Or.inr he', h⟩
      · rintro (h | ⟨e', he' | he', h⟩)
        · exact Or.inl h
        · exact absurd (he' ▸ h.1) hc
        · exact Or.inr ⟨e', he', h⟩

theorem mem_keys_foldInc (decode : String → Option (Option Nat)) (tz : Int)
    (subj : String) (es : List NostrEvent) :
    ∀ (s : AccState) (x : String),
      (x ∈ (es.foldl (processIncoming decode tz subj) s).monthlyMap.map Prod.fst ↔
        x ∈ s.monthlyMap.map Prod.fst ∨
          ∃ e ∈ es, incMonthContrib decode subj e = true ∧
            x = getMonthKey tz e.created_at) := by
  induction es with
  | nil =>
    intro s x
    simp
  | cons e es ih =>
    intro s x
    rw [List.foldl_cons, ih (processIncoming decode tz subj s e) x,
      processIncoming_monthlyMap]
    by_cases hc1 : ((e.pubkey != subj) && (e.kind == 7) && (findETag e.tags).isSome) = true
    · rw [if_pos hc1, mem_keys_addToMonthly]
      have hcontrib : incMonthContrib decode subj e = true := by
        unfold incMonthContrib
        rw [Bool.or_eq_true]
        exact Or.inl hc1
      simp only [List.mem_cons]
      constructor
      · rintro ((h | h) | ⟨e', he', h⟩)
        · exact Or.inl h
        · exact Or.inr ⟨e, Or.inl rfl, hcontrib, h⟩
        · exact Or.inr ⟨e', Or.inr he', h⟩
      · rintro (h | ⟨e', he' | he', h⟩)
        · exact Or.inl (Or.inl h)
        · exact Or.inl (Or.inr (he' ▸ h.2))
        · exact Or.inr ⟨e', he', h⟩
    · rw [if_neg hc1]
      by_cases hc2 : ((e.pubkey != subj) && (e.kind == 9735) &&
          decide (0 < zapSats decode e)) = true
      · rw [if_pos hc2, mem_keys_addToMonthly]
        have hcontrib : incMonthContrib decode subj e = true := by
          unfold incMonthContrib
          rw [Bool.or_eq_true]
          exact Or.inr hc2
        simp only [List.mem_cons]
        constructor
        · rintro ((h | h) | ⟨e', he', h⟩)
          · exact Or.inl h
          · exact Or.inr ⟨e, Or.inl rfl, hcontrib, h⟩
          · exact Or.inr ⟨e', Or.inr he', h⟩
        · rintro (h | ⟨e', he' | he', h⟩)
          · exact Or.inl (Or.inl h)
          · exact Or.inl (Or.inr (he' ▸ h.2))
          · exact Or.inr ⟨e', he', h⟩
      · rw [if_neg hc2]
        have hnc : incMonthContrib decode subj e = false := by
          unfold incMonthContrib
          rw [Bool.or_eq_false_iff]
          exact ⟨by simpa using hc1, by simpa using hc2⟩
        simp only [List.mem_cons]
        constructor
        · rintro (h | ⟨e', he', h⟩)
          · exact Or.inl h
          · exact Or.inr ⟨e', Or.inr he', h⟩
        · rintro (h | ⟨e', he' | he', h⟩)
          · exact Or.inl h
          · rw [he', hnc] at h
            exact absurd h.1 (by simp)
          · exact Or.inr ⟨e', he', h⟩

theorem mem_keys_foldSent (decode : String → Option (Option Nat)) (tz : Int)
    (es : List NostrEvent) :
    ∀ (s : AccState) (x : String),
      (x ∈ (es.foldl (processSentZap decode tz) s).monthlyMap.map Prod.fst ↔
        x ∈ s.monthlyMap.map Prod.fst ∨
          ∃ e ∈ es, 0 < zapSats decode e ∧ x = getMonthKey tz e.created_at) := by
  induction es with
  | nil =>
    intro s x
    simp
  | cons e es ih =>
    intro s x
    rw [List.foldl_cons, ih (processSentZap decode tz s e) x,
      processSentZap_monthlyMap]
    by_cases hc : 0 < zapSats decode e
    · rw [if_pos hc, mem_keys_addToMonthly]
      simp only [List.mem_cons]
      constructor
      · rintro ((h | h) | ⟨e', he', h⟩)
        · exact Or.inl h
        · exact Or.inr ⟨e, Or.inl rfl, hc, h⟩
        · exact Or.inr ⟨e', Or.inr he', h⟩
      · rintro (h | ⟨e', he' | he', h⟩)
        · exact Or.inl (Or.inl h)
        · exact Or.inl (Or.inr (he' ▸ h.2))
        · exact Or.inr ⟨e', he', h⟩
    · rw [if_neg hc]
      simp only [List.mem_cons]
      constructor
      · rintro (h | ⟨e', he', h⟩)
        · exact Or.inl h
        · exact Or.inr ⟨e', Or.inr he', h⟩
      · rintro (h | ⟨e', he' | he', h⟩)
        · exact Or.inl h
        · exact absurd (he' ▸ h.1) hc
        · exact Or.inr ⟨e', he', h⟩

theorem nodup_keys_foldOwn (tz : Int) (subj : String) (es : List NostrEvent) :
    ∀ s : AccState, (s.monthlyMap.map Prod.fst).Nodup →
      ((es.foldl (processOwn tz subj) s).monthlyMap.map Prod.fst).Nodup := by
  induction es with
  | nil => exact fun s h => h
  | cons e es ih =>
    intro s h
    rw [List.foldl_cons]
    apply ih
    rw [processOwn_monthlyMap]
    by_cases hc : countedKind e.kind
    · rw [if_pos hc]
      exact nodup_keys_addToMonthly _ _ _ _ h
    · rw [if_neg hc]
      exact h

theorem nodup_keys_foldInc (decode : String → Option (Option Nat)) (tz : Int)
    (subj : String) (es : List NostrEvent) :
    ∀ s : AccState, (s.monthlyMap.map Prod.fst).Nodup →
      ((es.foldl (processIncoming decode tz subj) s).monthlyMap.map Prod.fst).Nodup := by
  induction es with
  | nil => exact fun s h => h
  | cons e es ih =>
    intro s h
    rw [List.foldl_cons]
    apply ih
    rw [processIncoming_monthlyMap]
    by_cases hc1 : ((e.pubkey != subj) && (e.kind == 7) && (findETag e.tags).isSome) = true
    · rw [if_pos hc1]
      exact nodup_keys_addToMonthly _ _ _ _ h
    · rw [if_neg hc1]
      by_cases hc2 : ((e.pubkey != subj) && (e.kind == 9735) &&
          decide (0 < zapSats decode e)) = true
      · rw [if_pos hc2]
        exact nodup_keys_addToMonthly _ _ _ _ h
      · rw [if_neg hc2]
        exact h

theorem nodup_keys_foldSent (decode : String → Option (Option Nat)) (tz : Int)
    (es : List NostrEvent) :
    ∀ s : AccState, (s.monthlyMap.map Prod.fst).Nodup →
      ((es.foldl (processSentZap decode tz) s).monthlyMap.map Prod.fst).Nodup := by
  induction es with
  | nil => exact fun s h => h
  | cons e es ih =>
    intro s h
    rw [List.foldl_cons]
    apply ih
    rw [processSentZap_monthlyMap]
    by_cases hc : 0 < zapSats decode e
    · rw [if_pos hc]
      exact nodup_keys_addToMonthly _ _ _ _ h
    · rw [if_neg hc]
      exact h

/-! ### Assembly for claim C8 -/

theorem exists_mem_perm {α : Type} {l₁ l₂ : List α} (h : l₁.Perm l₂)
    (P : α → Prop) : (∃ e ∈ l₁, P e) ↔ (∃ e ∈ l₂, P e) := by
  constructor
  · rintro ⟨e, he, hp⟩
    exact ⟨e, h.mem_iff.mp he, hp⟩
  · rintro ⟨e, he, hp⟩
    exact ⟨e, h.mem_iff.mpr he, hp⟩

theorem monthlyActivity_extract (decode : String → Option (Option Nat))
    (tz : Int) (subject : String) (relays : List String) (ps pu : Int)
    (own inc zaps : List NostrEvent) :
    (accumulateStats decode tz subject relays ps pu own inc zaps).monthlyActivity =
      (((zaps.foldl (processSentZap decode tz)
        (inc.foldl (processIncoming decode tz subject)
          (own.foldl (processOwn tz subject) initAcc))).monthlyMap.map
            monthRecordOf).mergeSort monthLE) := by
  unfold accumulateStats
  dsimp only

theorem monthly_equal (decode : String → Option (Option Nat)) (tz : Int)
    (subject : String) (relays : List String) (ps pu : Int)
    (own₁ own₂ inc₁ inc₂ zap₁ zap₂ : List NostrEvent)
    (ho : own₁.Perm own₂) (hi : inc₁.Perm inc₂) (hz : zap₁.Perm zap₂) :
    (accumulateStats decode tz subject relays ps pu own₁ inc₁ zap₁).monthlyActivity =
      (accumulateStats decode tz subject relays ps pu own₂ inc₂ zap₂).monthlyActivity := by
  have hnd₁ : (((zap₁.foldl (processSentZap decode tz)
      (inc₁.foldl (processIncoming decode tz subject)
        (own₁.foldl (processOwn tz subject) initAcc))).monthlyMap.map Prod.fst)).Nodup := by
    apply nodup_keys_foldSent
    apply nodup_keys_foldInc
    apply nodup_keys_foldOwn
    simp [initAcc]
  have hnd₂ : (((zap₂.foldl (processSentZap decode tz)
      (inc₂.foldl (processIncoming decode tz subject)
        (own₂.foldl (processOwn tz subject) initAcc))).monthlyMap.map Prod.fst)).Nodup := by
    apply nodup_keys_foldSent
    apply nodup_keys_foldInc
    apply nodup_keys_foldOwn
    simp [initAcc]
  have hlook : monthLookup (zap₁.foldl (processSentZap decode tz)
      (inc₁.foldl (processIncoming decode tz subject)
        (own₁.foldl (processOwn tz subject) initAcc))) =
      monthLookup (zap₂.foldl (processSentZap decode tz)
        (inc₂.foldl (processIncoming decode tz subject)
          (own₂.foldl (processOwn tz subject) initAcc))) := by
    rw [monthLookup_foldSent, monthLookup_foldSent, monthLookup_foldInc,
      monthLookup_foldInc, monthLookup_foldOwn, monthLookup_foldOwn]
    have e1 : own₁.foldl (mStepOwn tz) (monthLookup initAcc) =
        own₂.foldl (mStepOwn tz) (monthLookup initAcc) :=
      ho.foldl_eq' (fun x _ y _ z => mStepOwn_comm tz z x y) _
    rw [e1]
    have e2 : inc₁.foldl (mStepInc decode tz subject)
        (own₂.foldl (mStepOwn tz) (monthLookup initAcc)) =
        inc₂.foldl (mStepInc decode tz subject)
          (own₂.foldl (mStepOwn tz) (monthLookup initAcc)) :=
      hi.foldl_eq' (fun x _ y _ z => mStepInc_comm decode tz subject z x y) _
    rw [e2]
    exact hz.foldl_eq' (fun x _ y _ z => mStepSent_comm decode tz z x y) _
  have hkmem : ∀ x : String,
      x ∈ ((zap₁.foldl (processSentZap decode tz)
        (inc₁.foldl (processIncoming decode tz subject)
          (own₁.foldl (processOwn tz subject) initAcc))).monthlyMap.map Prod.fst) ↔
      x ∈ ((zap₂.foldl (processSentZap decode tz)
        (inc₂.foldl (processIncoming decode tz subject)
          (own₂.foldl (processOwn tz subject) initAcc))).monthlyMap.map Prod.fst) := by
    intro x
    rw [mem_keys_foldSent, mem_keys_foldInc, mem_keys_foldOwn,
      mem_keys_foldSent, mem_keys_foldInc, mem_keys_foldOwn]
    rw [exists_mem_perm ho, exists_mem_perm hi, exists_mem_perm hz]
  have hkperm : ((zap₁.foldl (processSentZap decode tz)
      (inc₁.foldl (processIncoming decode tz subject)
        (own₁.foldl (processOwn tz subject) initAcc))).monthlyMap.map Prod.fst).Perm
      ((zap₂.foldl (processSentZap decode tz)
        (inc₂.foldl (processIncoming decode tz subject)
          (own₂.foldl (processOwn tz subject) initAcc))).monthlyMap.map Prod.fst) :=
    (List.perm_ext_iff_of_nodup hnd₁ hnd₂).mpr hkmem
  have hc₁ := assoc_canonical
    ((zap₁.foldl (processSentZap decode tz)
      (inc₁.foldl (processIncoming decode tz subject)
        (own₁.foldl (processOwn tz subject) initAcc))).monthlyMap)
    _ zeroMonth rfl hnd₁
  have hc₂ := assoc_canonical
    ((zap₂.foldl (processSentZap decode tz)
      (inc₂.foldl (processIncoming decode tz subject)
        (own₂.foldl (processOwn tz subject) initAcc))).monthlyMap)
    _ zeroMonth rfl hnd₂
  have hMperm : ((zap₁.foldl (processSentZap decode tz)
      (inc₁.foldl (processIncoming decode tz subject)
        (own₁.foldl (processOwn tz subject) initAcc))).monthlyMap).Perm
      ((zap₂.foldl (processSentZap decode tz)
        (inc₂.foldl (processIncoming decode tz subject)
          (own₂.foldl (processOwn tz subject) initAcc))).monthlyMap) := by
    rw [hc₁, hc₂]
    have hfun : (fun k => (k, (jsGet ((zap₁.foldl (processSentZap decode tz)
        (inc₁.foldl (processIncoming decode tz subject)
          (own₁.foldl (processOwn tz subject) initAcc))).monthlyMap) k).getD zeroMonth)) =
        (fun k => (k, (jsGet ((zap₂.foldl (processSentZap decode tz)
          (inc₂.foldl (processIncoming decode tz subject)
            (own₂.foldl (processOwn tz subject) initAcc))).monthlyMap) k).getD zeroMonth)) := by
      funext k
      have := congrFun hlook k
      unfold monthLookup at this
      rw [this]
    rw [hfun]
    exact hkperm.map _
  rw [monthlyActivity_extract, monthlyActivity_extract]
  apply mergeSort_eq_of_perm_nodup_keys (fun a : MonthlyActivity => a.month)
  · intro a b
    unfold monthLE
    exact decide_eq_true_iff
  · exact hMperm.map monthRecordOf
  · rw [List.map_map]
    have : ((fun a : MonthlyActivity => a.month) ∘ monthRecordOf) =
        (Prod.fst : String × MonthCounts → String) := by
      funext p
      rfl
    rw [this]
    exact hnd₁

theorem accumulate_scalars (decode : String → Option (Option Nat)) (tz : Int)
    (subject : String) (relays : List String) (ps pu : Int)
    (own inc zaps : List NostrEvent) :
    (accumulateStats decode tz subject relays ps pu own inc zaps).kind1Count =
      ownKindCount 1 own ∧
    (accumulateStats decode tz subject relays ps pu own inc zaps).kind6Count =
      ownKindCount 6 own ∧
    (accumulateStats decode tz subject relays ps pu own inc zaps).kind7Count =
      ownKindCount 7 own ∧
    (accumulateStats decode tz subject relays ps pu own inc zaps).kind42Count =
      ownKindCount 42 own ∧
    (accumulateStats decode tz subject relays ps pu own inc zaps).kind30023Count =
      ownKindCount 30023 own ∧
    (accumulateStats decode tz subject relays ps pu own inc zaps).kind1Chars =
      ownCharSum 1 own ∧
    (accumulateStats decode tz subject relays ps pu own inc zaps).kind30023Chars =
      ownCharSum 30023 own ∧
    (accumulateStats decode tz subject relays ps pu own inc zaps).imageCount =
      ownImageSum own ∧
    (accumulateStats decode tz subject relays ps pu own inc zaps).receivedReactionsCount =
      incReactionCount subject inc ∧
    (accumulateStats decode tz subject relays ps pu own inc zaps).zapsReceived =
      ⟨incZapCount decode subject inc, incZapTotal decode subject inc,
       averageSats (incZapTotal decode subject inc) (incZapCount decode subject inc)⟩ ∧
    (accumulateStats decode tz subject relays ps pu own inc zaps).zapsSent =
      ⟨sentZapCount decode zaps, sentZapTotal decode zaps,
       averageSats (sentZapTotal decode zaps) (sentZapCount decode zaps)⟩ := by
  obtain ⟨a1, a6, a7, a42, a3, ac1, ac3, aim, arr, azc, azt, asc, ast⟩ :=
    foldOwn_scalars tz subject own initAcc
  obtain ⟨b1, b6, b7, b42, b3, bc1, bc3, bim, brr, bzc, bzt, bsc, bst⟩ :=
    foldInc_scalars decode tz subject inc
      (own.foldl (processOwn tz subject) initAcc)
  obtain ⟨c1, c6, c7, c42, c3, cc1, cc3, cim, crr, czc, czt, csc, cst⟩ :=
    foldSent_scalars decode tz zaps
      (inc.foldl (processIncoming decode tz subject)
        (own.foldl (processOwn tz subject) initAcc))
  unfold accumulateStats
  dsimp only
  refine ⟨?_, ?_, ?_, ?_, ?_, ?_, ?_, ?_, ?_, ?_, ?_⟩
  · rw [c1, b1, a1]; simp [initAcc]
  · rw [c6, b6, a6]; simp [initAcc]
  · rw [c7, b7, a7]; simp [initAcc]
  · rw [c42, b42, a42]; simp [initAcc]
  · rw [c3, b3, a3]; simp [initAcc]
  · rw [cc1, bc1, ac1]; simp [initAcc]
  · rw [cc3, bc3, ac3]; simp [initAcc]
  · rw [cim, bim, aim]; simp [initAcc]
  · rw [crr, brr, arr]; simp [initAcc]
  · rw [czc, czt, bzc, bzt, azc, azt]; simp [initAcc]
  · rw [csc, cst, bsc, bst, asc, ast]; simp [initAcc]

/-- Claim C8: accumulating the same own, incoming and sent-zap event sets
after any permutation of the order within each list yields a snapshot with
identical counts, character totals, image count, monthly and hourly
histograms, received-reaction total and zap aggregates (`statsCore`); the
whole snapshot (including the top-N lists, whose tie-break order follows
the discovery order) is a deterministic function of the given discovery
order. -/
theorem accumulateStats_perm_invariant (decode : String → Option (Option Nat))
    (tz : Int) (subject : String) (relays : List String) (ps pu : Int)
    (own₁ own₂ inc₁ inc₂ zap₁ zap₂ : List NostrEvent)
    (ho : own₁.Perm own₂) (hi : inc₁.Perm inc₂) (hz : zap₁.Perm zap₂) :
    statsCore (accumulateStats decode tz subject relays ps pu own₁ inc₁ zap₁) =
      statsCore (accumulateStats decode tz subject relays ps pu own₂ inc₂ zap₂) ∧
    (own₁ = own₂ → inc₁ = inc₂ → zap₁ = zap₂ →
      accumulateStats decode tz subject relays ps pu own₁ inc₁ zap₁ =
        accumulateStats decode tz subject relays ps pu own₂ inc₂ zap₂) := by
  refine ⟨?_, fun h1 h2 h3 => by rw [h1, h2, h3]⟩
  obtain ⟨x1, x6, x7, x42, x3, xc1, xc3, xim, xrr, xzr, xzs⟩ :=
    accumulate_scalars decode tz subject relays ps pu own₁ inc₁ zap₁
  obtain ⟨y1, y6, y7, y42, y3, yc1, yc3, yim, yrr, yzr, yzs⟩ :=
    accumulate_scalars decode tz subject relays ps pu own₂ inc₂ zap₂
  unfold statsCore
  simp only [StatsCore.mk.injEq]
  refine ⟨?_, ?_, ?_, ?_, ?_, ?_, ?_, ?_, ?_, ?_, ?_, ?_, ?_⟩
  · rw [x1, y1]
    exact ho.countP_eq _
  · rw [xc1, yc1]
    unfold ownCharSum
    exact ((ho.filter _).map _).sum_eq
  · rw [x3, y3]
    exact ho.countP_eq _
  · rw [xc3, yc3]
    unfold ownCharSum
    exact ((ho.filter _).map _).sum_eq
  · rw [x6, y6]
    exact ho.countP_eq _
  · rw [x7, y7]
    exact ho.countP_eq _
  · rw [xrr, yrr]
    exact hi.countP_eq _
  · rw [x42, y42]
    exact ho.countP_eq _
  · rw [xim, yim]
    unfold ownImageSum
    exact ((ho.filter _).map _).sum_eq
  · exact monthly_equal decode tz subject relays ps pu own₁ own₂ inc₁ inc₂
      zap₁ zap₂ ho hi hz
  · rw [hourly_canonical, hourly_canonical]
    have hcnt : ∀ h : Int, ownHourCount own₁ h = ownHourCount own₂ h := by
      intro h
      unfold ownHourCount
      rw [← List.countP_eq_length_filter, ← List.countP_eq_length_filter]
      exact ho.countP_eq _
    have : (fun h : Nat => HourlyActivity.mk (h : Int) (ownHourCount own₁ h)) =
        (fun h : Nat => HourlyActivity.mk (h : Int) (ownHourCount own₂ h)) := by
      funext h
      rw [hcnt]
    rw [this]
  · rw [xzr, yzr]
    have hc : incZapCount decode subject inc₁ = incZapCount decode subject inc₂ :=
      hi.countP_eq _
    have ht : incZapTotal decode subject inc₁ = incZapTotal decode subject inc₂ :=
      ((hi.filter _).map _).sum_eq
    rw [hc, ht]
  · rw [xzs, yzs]
    have hc : sentZapCount decode zap₁ = sentZapCount decode zap₂ :=
      hz.countP_eq _
    have ht : sentZapTotal decode zap₁ = sentZapTotal decode zap₂ :=
      (hz.map _).sum_eq
    rw [hc, ht]

/-- Witness for C8 at concrete permuted event lists. -/
theorem accumulateStats_perm_invariant_witness :
    statsCore (accumulateStats (fun _ => some (some 1500)) 540 "me" [] 0 100
      [⟨"a", "me", 1, 10, [], "hi"⟩, ⟨"b", "me", 7, 20, [["p", "bob"]], "+"⟩]
      [⟨"c", "bob", 7, 30, [["e", "a"]], "+"⟩] [⟨"d", "bob", 9735, 40, [["bolt11", "ln"]], ""⟩]) =
    statsCore (accumulateStats (fun _ => some (some 1500)) 540 "me" [] 0 100
      [⟨"b", "me", 7, 20, [["p", "bob"]], "+"⟩, ⟨"a", "me", 1, 10, [], "hi"⟩]
      [⟨"c", "bob", 7, 30, [["e", "a"]], "+"⟩] [⟨"d", "bob", 9735, 40, [["bolt11", "ln"]], ""⟩]) :=
  (accumulateStats_perm_invariant (fun _ => some (some 1500)) 540 "me" [] 0 100
    _ _ _ _ _ _ (List.Perm.swap _ _ _) (List.Perm.refl _) (List.Perm.refl _)).1

/-! ### Claim C9: lemmas about the URL scanner -/

theorem scanUrls_nil (fuel : Nat) : scanUrls fuel [] = [] := by
  cases fuel <;> rfl

theorem scanUrls_cons_none (fuel : Nat) (c : Char) (t : List Char)
    (h : matchLenAt (c :: t) = none) :
    scanUrls (fuel + 1) (c :: t) = c :: scanUrls fuel t := by
  simp [scanUrls, h]

theorem scanUrls_cons_some (fuel : Nat) (c : Char) (t : List Char) (n : Nat)
    (h : matchLenAt (c :: t) = some n) :
    scanUrls (fuel + 1) (c :: t) = scanUrls fuel (List.drop n (c :: t)) := by
  simp [scanUrls, h]

theorem startsWithLower_le_length (pat l : List Char)
    (h : startsWithLower pat l = true) : pat.length ≤ l.length := by
  unfold startsWithLower at h
  rw [beq_iff_eq] at h
  have h2 : min pat.length l.length = pat.length := by
    have := congrArg List.length h
    simpa [List.length_take] using this
  exact min_eq_left_iff.mp h2

theorem schemeLen_none_iff (l : List Char) :
    schemeLen l = none ↔
      ¬ startsWithLower schemeHttps l = true ∧
      ¬ startsWithLower schemeHttp l = true := by
  unfold schemeLen
  by_cases h8 : startsWithLower schemeHttps l = true
  · simp [h8]
  · by_cases h7 : startsWithLower schemeHttp l = true <;> simp [h8, h7]

theorem schemeLen_some (l : List Char) (n : Nat) (h : schemeLen l = some n) :
    (n = 7 ∨ n = 8) ∧ n ≤ l.length := by
  unfold schemeLen at h
  by_cases h8 : startsWithLower schemeHttps l = true
  · rw [if_pos h8] at h
    obtain rfl : (8 : Nat) = n := by injection h
    refine ⟨Or.inr rfl, ?_⟩
    have := startsWithLower_le_length _ _ h8
    simpa [schemeHttps] using this
  · rw [if_neg h8] at h
    by_cases h7 : startsWithLower schemeHttp l = true
    · rw [if_pos h7] at h
      obtain rfl : (7 : Nat) = n := by injection h
      refine ⟨Or.inl rfl, ?_⟩
      have := startsWithLower_le_length _ _ h7
      simpa [schemeHttp] using this
    · rw [if_neg h7] at h
      exact absurd h (by simp)

theorem matchLenAt_bounds (l : List Char) (n : Nat) (h : matchLenAt l = some n) :
    8 ≤ n ∧ n ≤ l.length := by
  unfold matchLenAt at h
  cases hs : schemeLen l with
  | none =>
    rw [hs] at h
    exact absurd h (by simp)
  | some k =>
    rw [hs] at h
    dsimp only at h
    by_cases hr : (((l.drop k).takeWhile isUrlChar).length == 0) = true
    · rw [if_pos hr] at h
      exact absurd h (by simp)
    · rw [if_neg hr] at h
      have hkn : k + ((l.drop k).takeWhile isUrlChar).length = n := by injection h
      have hkb := schemeLen_some l k hs
      have hrun : ((l.drop k).takeWhile isUrlChar).length ≤ (l.drop k).length :=
        (List.takeWhile_prefix _).length_le
      have hdl : (l.drop k).length = l.length - k := List.length_drop _ _
      have hne : ((l.drop k).takeWhile isUrlChar).length ≠ 0 := by simpa using hr
      omega

theorem matchLenAt_none_of_schemeLen_none (l : List Char)
    (h : schemeLen l = none) : matchLenAt l = none := by
  unfold matchLenAt
  rw [h]

theorem startsWithLower_append_of_le (pat l r : List Char)
    (h : pat.length ≤ l.length) :
    startsWithLower pat (l ++ r) = startsWithLower pat l := by
  unfold startsWithLower
  rw [List.take_append_of_le_length h]

theorem schemeLen_append_of_ge (l r : List Char) (h : 8 ≤ l.length) :
    schemeLen (l ++ r) = schemeLen l := by
  unfold schemeLen
  rw [startsWithLower_append_of_le _ _ _ (by simp [schemeHttps]; omega),
    startsWithLower_append_of_le _ _ _ (by simp [schemeHttp]; omega)]

theorem urlShaped_parts (u : List Char) (h : matchLenAt u = some u.length) :
    ∃ k, schemeLen u = some k ∧ (k = 7 ∨ k = 8) ∧ k < u.length ∧
      (∀ x ∈ u.drop k, isUrlChar x = true) := by
  unfold matchLenAt at h
  cases hs : schemeLen u with
  | none =>
    rw [hs] at h
    exact absurd h (by simp)
  | some k =>
    rw [hs] at h
    dsimp only at h
    by_cases hr : (((u.drop k).takeWhile isUrlChar).length == 0) = true
    · rw [if_pos hr] at h
      exact absurd h (by simp)
    · rw [if_neg hr] at h
      have hkn : k + ((u.drop k).takeWhile isUrlChar).length = u.length := by injection h
      have hkb := schemeLen_some u k hs
      have hrun : ((u.drop k).takeWhile isUrlChar).length ≤ (u.drop k).length :=
        (List.takeWhile_prefix _).length_le
      have hdl : (u.drop k).length = u.length - k := List.length_drop _ _
      have hne : ((u.drop k).takeWhile isUrlChar).length ≠ 0 := by simpa using hr
      refine ⟨k, rfl, hkb.1, by omega, ?_⟩
      have heq : (u.drop k).takeWhile isUrlChar = u.drop k :=
        (List.takeWhile_prefix _).eq_of_length (by omega)
      exact List.takeWhile_eq_self_iff.mp heq

theorem matchLenAt_append_shaped (u rest : List Char)
    (h : matchLenAt u = some u.length)
    (hr : ∀ x ∈ rest.head?, isUrlChar x = false) :
    matchLenAt (u ++ rest) = some u.length := by
  obtain ⟨k, hs, hk78, hklt, hall⟩ := urlShaped_parts u h
  have h8 := (matchLenAt_bounds u u.length h).1
  unfold matchLenAt
  rw [schemeLen_append_of_ge u rest h8, hs]
  dsimp only
  have hdrop : (u ++ rest).drop k = u.drop k ++ rest :=
    List.drop_append_of_le_length (by omega)
  rw [hdrop]
  have hself : (u.drop k).takeWhile isUrlChar = u.drop k :=
    List.takeWhile_eq_self_iff.mpr hall
  have hrest : rest.takeWhile isUrlChar = [] := by
    cases rest with
    | nil => rfl
    | cons x xs =>
      have := hr x (by simp)
      simp [List.takeWhile_cons, this]
  have htw : List.takeWhile isUrlChar (u.drop k ++ rest) = u.drop k := by
    rw [List.takeWhile_append, if_pos (by rw [hself]), hrest, List.append_nil]
  rw [htw]
  have hlen : (u.drop k).length = u.length - k := List.length_drop _ _
  rw [if_neg (by simp [hlen]; omega)]
  congr 1
  omega

theorem urlShaped_head (u : List Char) (h : matchLenAt u = some u.length) :
    ∀ x ∈ u.head?, lowerChar x = 'h' := by
  obtain ⟨k, hs, _, _, _⟩ := urlShaped_parts u h
  intro x hx
  unfold schemeLen at hs
  by_cases h8 : startsWithLower schemeHttps u = true
  · unfold startsWithLower at h8
    rw [beq_iff_eq] at h8
    cases u with
    | nil => simp at hx
    | cons c t =>
      obtain rfl : c = x := by simpa using hx
      rw [show schemeHttps.length = 7 + 1 from rfl, List.take_succ_cons,
        List.map_cons] at h8
      rw [show schemeHttps = 'h' :: ['t', 't', 'p', 's', ':', '/', '/'] from rfl] at h8
      injection h8
  · rw [if_neg h8] at hs
    by_cases h7 : startsWithLower schemeHttp u = true
    · unfold startsWithLower at h7
      rw [beq_iff_eq] at h7
      cases u with
      | nil => simp at hx
      | cons c t =>
        obtain rfl : c = x := by simpa using hx
        rw [show schemeHttp.length = 6 + 1 from rfl, List.take_succ_cons,
          List.map_cons] at h7
        rw [show schemeHttp = 'h' :: ['t', 't', 'p', ':', '/', '/'] from rfl] at h7
        injection h7
    · rw [if_neg h7] at hs
      exact absurd hs (by simp)

theorem startsWithLower_append_cross (pat t rest : List Char)
    (hpat : pat = schemeHttp ∨ pat = schemeHttps)
    (htne : t ≠ []) (hns : ¬ startsWithLower pat t = true)
    (hh : ∀ x ∈ rest.head?, lowerChar x = 'h') :
    ¬ startsWithLower pat (t ++ rest) = true := by
  intro hcontra
  by_cases hlen : pat.length ≤ t.length
  · rw [startsWithLower_append_of_le _ _ _ hlen] at hcontra
    exact hns hcontra
  · push_neg at hlen
    unfold startsWithLower at hcontra
    rw [beq_iff_eq] at hcontra
    rw [List.take_append_eq_append_take] at hcontra
    have htt : t.take pat.length = t := List.take_of_length_le (le_of_lt hlen)
    rw [htt, List.map_append] at hcontra
    have hdrop := congrArg (List.drop t.length) hcontra
    rw [List.drop_left' (by simp)] at hdrop
    have htpos : 1 ≤ t.length := by
      cases t with
      | nil => exact absurd rfl htne
      | cons a b => simp
    cases rest with
    | nil =>
      have h0 : pat.drop t.length = [] := by simpa using hdrop.symm
      have := congrArg List.length h0
      simp [List.length_drop] at this
      omega
    | cons x xs =>
      obtain ⟨d, hd⟩ : ∃ d, pat.length - t.length = d + 1 :=
        ⟨pat.length - t.length - 1, by omega⟩
      rw [hd, List.take_succ_cons, List.map_cons] at hdrop
      have hh2 := congrArg List.head? hdrop
      rw [List.head?_cons] at hh2
      have hx : lowerChar x = 'h' := hh x (by simp)
      rw [hx] at hh2
      rcases hpat with rfl | rfl
      · have hn : t.length = 1 ∨ t.length = 2 ∨ t.length = 3 ∨ t.length = 4 ∨
            t.length = 5 ∨ t.length = 6 := by
          simp [schemeHttp] at hlen
          omega
        rcases hn with h | h | h | h | h | h <;> rw [h] at hh2 <;>
          exact absurd hh2 (by decide)
      · have hn : t.length = 1 ∨ t.length = 2 ∨ t.length = 3 ∨ t.length = 4 ∨
            t.length = 5 ∨ t.length = 6 ∨ t.length = 7 := by
          simp [schemeHttps] at hlen
          omega
        rcases hn with h | h | h | h | h | h | h <;> rw [h] at hh2 <;>
          exact absurd hh2 (by decide)

theorem schemeLen_append_cross (t rest : List Char) (htne : t ≠ [])
    (hsafe : schemeLen t = none) (hh : ∀ x ∈ rest.head?, lowerChar x = 'h') :
    schemeLen (t ++ rest) = none := by
  rw [schemeLen_none_iff] at hsafe ⊢
  exact ⟨startsWithLower_append_cross schemeHttps t rest (Or.inr rfl) htne hsafe.1 hh,
    startsWithLower_append_cross schemeHttp t rest (Or.inl rfl) htne hsafe.2 hh⟩

theorem scanUrls_chunk (chunk rest : List Char) (fuel : Nat)
    (hsafe : ∀ t ∈ chunk.tails, t ≠ [] → matchLenAt (t ++ rest) = none) :
    scanUrls (chunk.length + fuel) (chunk ++ rest) = chunk ++ scanUrls fuel rest := by
  induction chunk with
  | nil => simp
  | cons c ct ih =>
    have hm : matchLenAt (c :: (ct ++ rest)) = none := by
      have := hsafe (c :: ct) (by simp [List.tails_cons]) (by simp)
      rwa [List.cons_append] at this
    have hlen : (c :: ct).length + fuel = (ct.length + fuel) + 1 := by
      simp [List.length_cons]
      omega
    rw [hlen, List.cons_append, scanUrls_cons_none _ _ _ hm, List.cons_append]
    congr 1
    refine ih fun t ht htne => hsafe t ?_ htne
    rw [List.mem_tails] at ht ⊢
    exact ht.trans (List.suffix_cons c ct)

theorem scanUrls_url (u rest : List Char) (fuel : Nat)
    (h : matchLenAt u = some u.length)
    (hr : ∀ x ∈ rest.head?, isUrlChar x = false) :
    scanUrls (fuel + 1) (u ++ rest) = scanUrls fuel rest := by
  have hm := matchLenAt_append_shaped u rest h hr
  have h8 := (matchLenAt_bounds u u.length h).1
  cases u with
  | nil => simp at h8
  | cons c t =>
    rw [List.cons_append] at hm ⊢
    rw [scanUrls_cons_some _ _ _ _ hm, ← List.cons_append, List.drop_left]

theorem assemble_head (c : List Char) (pairs : List (List Char × List Char))
    (hne : c ≠ []) : (assemble c pairs).head? = c.head? := by
  cases pairs with
  | nil => rfl
  | cons p rest =>
    obtain ⟨u, c'⟩ := p
    show (c ++ u ++ assemble c' rest).head? = c.head?
    cases c with
    | nil => exact absurd rfl hne
    | cons x xs => simp

theorem chunkSafe_schemeLen (c : List Char) (h : chunkSafeB c = true) :
    ∀ t ∈ c.tails, schemeLen t = none := by
  intro t ht
  have := List.all_eq_true.mp h t ht
  simpa [Option.isNone_iff_eq_none] using this

theorem scanUrls_assemble (pairs : List (List Char × List Char)) :
    ∀ (c0 : List Char) (fuel : Nat), chunkSafeB c0 = true → sepB pairs = true →
      (assemble c0 pairs).length ≤ fuel →
      scanUrls fuel (assemble c0 pairs) = c0 ++ (pairs.map Prod.snd).flatten := by
  induction pairs with
  | nil =>
    intro c0 fuel h0 _ hfuel
    show scanUrls fuel c0 = c0 ++ []
    have hfc : c0.length ≤ fuel := hfuel
    obtain ⟨f', rfl⟩ : ∃ f', fuel = c0.length + f' := ⟨fuel - c0.length, by omega⟩
    have hsafe : ∀ t ∈ c0.tails, t ≠ [] → matchLenAt (t ++ ([] : List Char)) = none := by
      intro t ht _
      rw [List.append_nil]
      exact matchLenAt_none_of_schemeLen_none t (chunkSafe_schemeLen c0 h0 t ht)
    have hch := scanUrls_chunk c0 [] f' hsafe
    rw [List.append_nil] at hch
    rw [hch, scanUrls_nil, List.append_nil]
  | cons p rest ih =>
    obtain ⟨u, c⟩ := p
    intro c0 fuel h0 hsep hfuel
    have hsep' := hsep
    simp only [sepB, Bool.and_eq_true, beq_iff_eq] at hsep'
    obtain ⟨⟨⟨hu, hc⟩, hhead⟩, hrest⟩ := hsep'
    have h8u := (matchLenAt_bounds u u.length hu).1
    have hu_ne : u ≠ [] := by
      intro h
      rw [h] at h8u
      simp at h8u
    have hheadUA : ∀ x ∈ (u ++ assemble c rest).head?, lowerChar x = 'h' := by
      intro x hx
      cases u with
      | nil => exact absurd rfl hu_ne
      | cons a t =>
        have hax : a = x := by simpa using hx
        exact hax ▸ urlShaped_head (a :: t) hu a (by simp)
    have hlenA : c0.length + (u.length + (assemble c rest).length) ≤ fuel := by
      have hst : (assemble c0 ((u, c) :: rest)).length
          = c0.length + (u.length + (assemble c rest).length) := by
        show (c0 ++ u ++ assemble c rest).length = _
        simp [List.length_append, Nat.add_assoc]
      omega
    obtain ⟨f1, rfl⟩ : ∃ f1, fuel = c0.length + f1 := ⟨fuel - c0.length, by omega⟩
    have hsafe0 : ∀ t ∈ c0.tails, t ≠ [] →
        matchLenAt (t ++ (u ++ assemble c rest)) = none := by
      intro t ht htne
      exact matchLenAt_none_of_schemeLen_none _
        (schemeLen_append_cross t _ htne (chunkSafe_schemeLen c0 h0 t ht) hheadUA)
    show scanUrls (c0.length + f1) (c0 ++ u ++ assemble c rest) = _
    rw [List.append_assoc, scanUrls_chunk c0 (u ++ assemble c rest) f1 hsafe0]
    congr 1
    have hf1 : u.length + (assemble c rest).length ≤ f1 := by omega
    obtain ⟨f2, rfl⟩ : ∃ f2, f1 = f2 + 1 := ⟨f1 - 1, by omega⟩
    have hrA : ∀ x ∈ (assemble c rest).head?, isUrlChar x = false := by
      cases c with
      | nil =>
        have hre : rest = [] := by simpa [List.isEmpty_iff] using hhead
        subst hre
        intro x hx
        simp [assemble] at hx
      | cons y ys =>
        have hy : isUrlChar y = false := by simpa using hhead
        intro x hx
        rw [assemble_head (y :: ys) rest (by simp)] at hx
        obtain rfl : y = x := by simpa using hx
        exact hy
    rw [scanUrls_url u (assemble c rest) f2 hu hrA]
    rw [ih c f2 hc hrest (by omega)]
    rfl

/-- **C9.** `countCharsWithoutUrls` (the URL-stripped character count) is
invariant under reordering the URL-shaped substrings of a text, and
insensitive to duplicate identical URLs: for any two texts assembled from the
same non-URL chunks and well-separated full `URL_PATTERN` matches whose
multisets are permutations of each other, the counts agree (each stripped
occurrence contributes the same reduction, namely its own length). -/
theorem countCharsWithoutUrls_url_invariant
    (c0 : List Char) (pairsA pairsB : List (List Char × List Char))
    (h0 : chunkSafeB c0 = true)
    (h1 : sepB pairsA = true) (h2 : sepB pairsB = true)
    (_hperm : (pairsA.map Prod.fst).Perm (pairsB.map Prod.fst))
    (hsnd : pairsA.map Prod.snd = pairsB.map Prod.snd) :
    countCharsWithoutUrls (String.mk (assemble c0 pairsA)) =
      countCharsWithoutUrls (String.mk (assemble c0 pairsB)) := by
  unfold countCharsWithoutUrls removeUrls
  rw [show (String.mk (assemble c0 pairsA)).toList = assemble c0 pairsA from rfl,
    show (String.mk (assemble c0 pairsB)).toList = assemble c0 pairsB from rfl,
    scanUrls_assemble pairsA c0 _ h0 h1 le_rfl,
    scanUrls_assemble pairsB c0 _ h0 h2 le_rfl, hsnd]

/-- The invariance theorem at a concrete input: "see http://ab and https://cd"
versus "see https://cd and http://ab" have the same URL-stripped count. -/
theorem countCharsWithoutUrls_url_invariant_witness :
    countCharsWithoutUrls (String.mk (assemble "see ".toList
      [("http://ab".toList, " and ".toList), ("https://cd".toList, [])])) =
    countCharsWithoutUrls (String.mk (assemble "see ".toList
      [("https://cd".toList, " and ".toList), ("http://ab".toList, [])])) :=
  countCharsWithoutUrls_url_invariant _ _ _ (by decide) (by decide) (by decide)
    (by decide) (by decide)



end NostrYears
